import Mathlib

/-!
Verification development for the sanitize-dom repository (src/src).

The development shallowly embeds the code of src/src/sanitize-dom.js and
its libraries (lib/options.js, lib/matches-any.js, lib/get-values-for-tagname.js,
lib/attributes.js, lib/join-siblings.js, lib/children-of.js):

* DOM nodes become a rose tree carrying a numeric id; the id plays the role
  of JavaScript reference identity (the WeakMap side table is keyed by it).
* The per-invocation option bag is a structure whose regex-bearing fields
  hold an abstract regex AST; matching is case-insensitive whole-string
  matching, mirroring compileRegex from lib/options.js, which compiles a
  pattern p to new RegExp of the anchored pattern with the i flag.
* The recursive engine (sanitizeNode / sanitizeChildNodes /
  runFiltersOnNode / childNodesToSanitizedSiblings) becomes a family of
  fueled, mutually recursive functions; fuel only bounds recursion depth
  (the JavaScript engine can diverge when filters are badly behaved), and
  running out of fuel is a distinguished error.
* joinSiblings from lib/join-siblings.js mutates detached nodes through
  live references, so it is embedded against a node store (a heap keyed by
  node id) rather than against rose trees.
-/

namespace SanitizeDom

/-! ### Regular expressions

The source compiles every user-supplied pattern string with
compileRegex (lib/options.js): new RegExp of the pattern anchored at both
ends, with the case-insensitivity flag.  We model the pattern language as
an abstract syntax tree and matching as case-insensitive whole-string
matching via Brzozowski derivatives. -/

inductive Regex where
  | emptyset : Regex
  | epsilon : Regex
  | chr (c : Char) : Regex
  | anyChar : Regex
  | cat (r₁ r₂ : Regex) : Regex
  | alt (r₁ r₂ : Regex) : Regex
  | star (r : Regex) : Regex
deriving DecidableEq, Repr

namespace Regex

def nullable : Regex → Bool
  | .emptyset => false
  | .epsilon => true
  | .chr _ => false
  | .anyChar => false
  | .cat r₁ r₂ => nullable r₁ && nullable r₂
  | .alt r₁ r₂ => nullable r₁ || nullable r₂
  | .star _ => true

/-- Case-insensitive character comparison: the i flag of the compiled
JavaScript regular expression. -/
def charEq (c a : Char) : Bool := c.toUpper == a.toUpper

def deriv : Regex → Char → Regex
  | .emptyset, _ => .emptyset
  | .epsilon, _ => .emptyset
  | .chr c, a => if charEq c a then .epsilon else .emptyset
  | .anyChar, _ => .epsilon
  | .cat r₁ r₂, a =>
      if nullable r₁ then .alt (.cat (deriv r₁ a) r₂) (deriv r₂ a)
      else .cat (deriv r₁ a) r₂
  | .alt r₁ r₂, a => .alt (deriv r₁ a) (deriv r₂ a)
  | .star r, a => .cat (deriv r a) (.star r)

def matchesChars : Regex → List Char → Bool
  | r, [] => nullable r
  | r, c :: cs => matchesChars (deriv r c) cs

/-- Matching a whole string, mirroring value.match of the compiled
anchored case-insensitive regular expression being non-null. -/
def rmatch (r : Regex) (s : String) : Bool := matchesChars r s.data

/-- Literal pattern built from the characters of a string. -/
def lit (s : String) : Regex := s.data.foldr (fun c r => .cat (.chr c) r) .epsilon

/-- The pattern that matches anything. -/
def dotStar : Regex := .star .anyChar

end Regex

/-! ### DOM nodes

A node is an element (tag name, attribute names, class tokens, ordered
children) or a text node; both carry an id standing for JavaScript
reference identity.  Attribute values play no role in the embedded code,
so attributes are kept as a list of names. -/

inductive DomNode where
  | element (id : Nat) (tag : String) (attrs : List String)
      (classes : List String) (children : List DomNode) : DomNode
  | text (id : Nat) (content : String) : DomNode
deriving Repr

namespace DomNode

def id : DomNode → Nat
  | .element i _ _ _ _ => i
  | .text i _ => i

/-- The WHATWG nodeName: the tag for elements, the hash-text name for text
nodes. -/
def nodeName : DomNode → String
  | .element _ t _ _ _ => t
  | .text _ _ => "#text"

/-- nodeType 3 discriminator. -/
def isText : DomNode → Bool
  | .element _ _ _ _ _ => false
  | .text _ _ => true

/-- The tagname the engine matches against: TEXT for text nodes (see
sanitize-dom.js line 330), the nodeName otherwise. -/
def tagnameFor (n : DomNode) : String := if n.isText then "TEXT" else n.nodeName

def children : DomNode → List DomNode
  | .element _ _ _ _ cs => cs
  | .text _ _ => []

def setChildren : DomNode → List DomNode → DomNode
  | .element i t a k _, cs => .element i t a k cs
  | .text i s, _ => .text i s

end DomNode

mutual
def DomNode.beq : DomNode → DomNode → Bool
  | .text i s, .text j t => i == j && s == t
  | .element i t a k cs, .element j u b l ds =>
      i == j && t == u && a == b && k == l && DomNode.beqL cs ds
  | _, _ => false

def DomNode.beqL : List DomNode → List DomNode → Bool
  | [], [] => true
  | c :: cs, d :: ds => DomNode.beq c d && DomNode.beqL cs ds
  | _, _ => false
end

mutual
theorem DomNode.beq_iff : ∀ a b : DomNode, DomNode.beq a b = true ↔ a = b
  | .text _ _, .text _ _ => by simp [DomNode.beq]
  | .element _ _ _ _ cs, .element _ _ _ _ ds => by
      simp [DomNode.beq, DomNode.beqL_iff cs ds]
      tauto
  | .text _ _, .element _ _ _ _ _ => by simp [DomNode.beq]
  | .element _ _ _ _ _, .text _ _ => by simp [DomNode.beq]

theorem DomNode.beqL_iff : ∀ l m : List DomNode, DomNode.beqL l m = true ↔ l = m
  | [], [] => by simp [DomNode.beqL]
  | c :: cs, d :: ds => by
      simp [DomNode.beqL, DomNode.beq_iff c d, DomNode.beqL_iff cs ds]
  | [], _ :: _ => by simp [DomNode.beqL]
  | _ :: _, [] => by simp [DomNode.beqL]
end

instance : DecidableEq DomNode := fun a b =>
  decidable_of_iff (DomNode.beq a b = true) (DomNode.beq_iff a b)

/-! ### The node side table

nodePropertyMap is a WeakMap from nodes to a property object whose fields
skip, skip_filters, skip_classes, skip_attributes the engine reads and
deletes.  skip_filters is tri-state because the infinite loop guard
distinguishes undefined from an explicit true or false. -/

structure NodeProps where
  skip : Bool := false
  skip_filters : Option Bool := none
  skip_classes : Bool := false
  skip_attributes : Bool := false
deriving DecidableEq, Repr

abbrev SideTable := List (Nat × NodeProps)

namespace SideTable

def lookup : SideTable → Nat → Option NodeProps
  | [], _ => none
  | e :: rest, i => if e.1 = i then some e.2 else lookup rest i

/-- Update the entry for id i when one exists; a missing entry stays
missing (JavaScript can only delete a field of an existing object). -/
def update : SideTable → Nat → (NodeProps → NodeProps) → SideTable
  | [], _, _ => []
  | e :: rest, i, f => (if e.1 = i then (e.1, f e.2) else e) :: update rest i f

def deleteSkipFilters (st : SideTable) (i : Nat) : SideTable :=
  st.update i (fun p => { p with skip_filters := none })

def deleteSkip (st : SideTable) (i : Nat) : SideTable :=
  st.update i (fun p => { p with skip := false })

/-- Truthiness of the skip flag of the entry. -/
def skipFlag (st : SideTable) (i : Nat) : Bool :=
  match st.lookup i with
  | some p => p.skip
  | none => false

/-- Truthiness of skip_filters (only an explicit true counts). -/
def skipFiltersTruthy (st : SideTable) (i : Nat) : Bool :=
  match st.lookup i with
  | some p => p.skip_filters == some true
  | none => false

/-- The infinite loop guard test: the entry exists and explicitly defines
skip_filters (as true or false). -/
def definesSkipFilters (st : SideTable) (i : Nat) : Bool :=
  match st.lookup i with
  | some p => p.skip_filters.isSome
  | none => false

def skipClassesFlag (st : SideTable) (i : Nat) : Bool :=
  match st.lookup i with
  | some p => p.skip_classes
  | none => false

def skipAttributesFlag (st : SideTable) (i : Nat) : Bool :=
  match st.lookup i with
  | some p => p.skip_attributes
  | none => false

end SideTable

/-! ### Filters and the option bag -/

/-- The context object passed to a filter callback (second argument of a
filter, sanitize-dom.js lines 254-258). -/
structure FilterCtx where
  parents : List DomNode
  parentNodenames : List String
  siblingIndex : Nat

/-- The value a filter callback returns.  The same constructor stands for
returning the input reference (result === node), possibly after in-place
mutation, so its payload carries the same id as the input. -/
inductive FilterResult where
  | same (n : DomNode)
  | single (n : DomNode)
  | arr (ns : List DomNode)
  | null

/-- A filter callback.  JavaScript filters can read and write the node
property WeakMap while running, so the embedded callback threads the side
table. -/
structure Filter where
  name : String
  fn : DomNode → FilterCtx → SideTable → FilterResult × SideTable

/-- Keys are matched against a parent tag name, values against the current
tag name (or attribute or class name). -/
abbrev ParentChildSpec := List (Regex × List Regex)

/-- The precompiled option bag.  Field defaults mirror optionDefaults of
sanitizeDom (sanitize-dom.js lines 219-231); remove_empty is absent there,
so an absent option is falsy. -/
structure Opts where
  filters_by_tag : List (Regex × List Filter) := []
  remove_tags_direct : ParentChildSpec := []
  remove_tags_deep : ParentChildSpec := []
  flatten_tags_direct : ParentChildSpec := []
  flatten_tags_deep : ParentChildSpec := []
  allow_tags_direct : ParentChildSpec := []
  allow_tags_deep : ParentChildSpec := []
  allow_attributes_by_tag : ParentChildSpec := []
  allow_classes_by_tag : ParentChildSpec := []
  remove_empty : Bool := false
  allowed_empty_tags : List String := ["IMG", "IFRAME", "HR", "BR", "INPUT"]
  join_siblings : List String := []

/-- lib/get-values-for-tagname.js: concatenate the values of every key
whose regex matches the tagname, in key order. -/
def getValuesForTagname {α : Type} (spec : List (Regex × List α)) (tagname : String) :
    List α :=
  match spec with
  | [] => []
  | (k, vs) :: rest =>
      (if Regex.rmatch k tagname then vs else []) ++ getValuesForTagname rest tagname

/-- lib/matches-any.js: true iff the value matches at least one value
regex of a key matching the tagname. -/
def matchesAny (spec : ParentChildSpec) (tagname value : String) : Bool :=
  (getValuesForTagname spec tagname).any (fun r => r.rmatch value)

/-! ### Attribute and class filtering (lib/attributes.js) -/

/-- filterClassesForNode: drop class tokens not allowed for this tag; if
the class attribute exists and no token remains, drop the attribute. -/
def filterClassesForNode (node : DomNode) (allowClassesByTag : ParentChildSpec) : DomNode :=
  match node with
  | .text i s => .text i s
  | .element i t attrs classes cs =>
      let kept := classes.filter (fun c => matchesAny allowClassesByTag t c)
      let attrs2 := if attrs.contains "class" && kept.isEmpty then attrs.erase "class" else attrs
      .element i t attrs2 kept cs

/-- filterAttributesForNode: drop attributes (except class, which is
handled separately) not allowed for this tag. -/
def filterAttributesForNode (node : DomNode) (allowAttributesByTag : ParentChildSpec) : DomNode :=
  match node with
  | .text i s => .text i s
  | .element i t attrs classes cs =>
      .element i t (attrs.filter (fun a => a == "class" || matchesAny allowAttributesByTag t a))
        classes cs

/-! ### The node store for the sibling joiner

joinSiblings (lib/join-siblings.js) keeps iterating a stale snapshot after
its recursive fixed-point call, so it can mutate nodes already detached
from the tree through live references.  To be faithful to that, it is
embedded against a heap of nodes keyed by id. -/

structure JNode where
  isText : Bool
  name : String
  text : String
  attrs : List String
  classes : List String
  children : List Nat
deriving DecidableEq, Repr

abbrev Store := List (Nat × JNode)

namespace Store

def lookup (st : Store) (i : Nat) : Option JNode :=
  (st.find? (fun e => e.1 == i)).map (·.2)

/-- childrenSnapshot of a node: its current child list (a snapshot, since
the store is functional). -/
def childrenOf (st : Store) (i : Nat) : List Nat :=
  match st.lookup i with
  | some n => n.children
  | none => []

def nodeName (st : Store) (i : Nat) : String :=
  match st.lookup i with
  | some n => n.name
  | none => ""

def isTextNode (st : Store) (i : Nat) : Bool :=
  match st.lookup i with
  | some n => n.isText
  | none => false

def textOf (st : Store) (i : Nat) : String :=
  match st.lookup i with
  | some n => n.text
  | none => ""

/-- node.remove(): detach the node from its parent.  Ids occur at most
once among all child lists, so erasing the id from every child list is the
removal from the unique parent. -/
def detach (st : Store) (i : Nat) : Store :=
  st.map (fun e => (e.1, { e.2 with children := e.2.children.filter (fun c => c ≠ i) }))

/-- parent.appendChild(child): first detach the child from wherever it
currently is, then append it to the parent's child list. -/
def appendChild (st : Store) (parent child : Nat) : Store :=
  (st.detach child).map
    (fun e => if e.1 == parent then (e.1, { e.2 with children := e.2.children ++ [child] }) else e)

end Store

/-- One character of the whitespace class of the regular expression used
at line 26 of lib/join-siblings.js. -/
def isWsChar (c : Char) : Bool :=
  c == ' ' || c == '\t' || c == '\n' || c == '\r' || c == '\x0b' || c == '\x0c'

/-- textContent.match of the nonempty-whitespace regex being non-null. -/
def wsOnly (s : String) : Bool := !s.isEmpty && s.data.all isWsChar

/-- The body of one iteration of the scan in joinSiblings: given the node
at the current position and the remaining stale snapshot, return none when
the iteration performs no join (continue), or the store after the join. -/
def joinStep (st : Store) (tags : List String) (n : Nat) (rest : List Nat) : Option Store :=
  match rest with
  | [] => none
  | n1 :: rest2 =>
      if !(tags.contains (st.nodeName n)) then none
      else if st.nodeName n == st.nodeName n1 then
        some ((((st.childrenOf n1).foldl (fun s c => s.appendChild n c) st)).detach n1)
      else
        match rest2 with
        | [] => none
        | n2 :: _ =>
            if st.nodeName n == st.nodeName n2 && st.isTextNode n1 && wsOnly (st.textOf n1) then
              let s1 := st.appendChild n n1
              some (((s1.childrenOf n2).foldl (fun s c => s.appendChild n c) s1).detach n2)
            else none

/-- The for loop of joinSiblings over the stale snapshot; after a join the
whole function recurses on the parent (through recur) and then the loop
continues with the stale snapshot. -/
def joinLoop (recur : Store → Option Store) (tags : List String) :
    List Nat → Store → Option Store
  | [], st => some st
  | n :: rest, st =>
      match joinStep st tags n rest with
      | none => joinLoop recur tags rest st
      | some st2 =>
          match recur st2 with
          | none => none
          | some st3 => joinLoop recur tags rest st3

/-- joinSiblings (lib/join-siblings.js), fueled: none means the fuel ran
out (the JavaScript function recurses without a bound). -/
def joinSiblings : Nat → Store → Nat → List String → Option Store
  | 0, _, _, _ => none
  | fuel + 1, st, parentId, tags =>
      joinLoop (fun s => joinSiblings fuel s parentId tags) tags (st.childrenOf parentId) st

/-! ### Bridging rose trees and the store -/

mutual
def storeEntries : DomNode → List (Nat × JNode)
  | .text i s =>
      [(i, { isText := true, name := "#text", text := s, attrs := [], classes := [],
             children := [] })]
  | .element i t a k cs =>
      (i, { isText := false, name := t, text := "", attrs := a, classes := k,
            children := cs.map DomNode.id }) :: storeEntriesL cs

def storeEntriesL : List DomNode → List (Nat × JNode)
  | [] => []
  | c :: cs => storeEntries c ++ storeEntriesL cs
end

def forestMaxId (ts : List DomNode) : Nat :=
  ((storeEntriesL ts).map (·.1)).foldl max 0

def storeOfForest (parentId : Nat) (ts : List DomNode) : Store :=
  (parentId, { isText := false, name := "#document-fragment", text := "", attrs := [],
               classes := [], children := ts.map DomNode.id }) :: storeEntriesL ts

mutual
def rebuildNode : Nat → Store → Nat → Option DomNode
  | 0, _, _ => none
  | fuel + 1, st, i =>
      match st.lookup i with
      | none => none
      | some jn =>
          if jn.isText then some (.text i jn.text)
          else
            match rebuildForest fuel st jn.children with
            | none => none
            | some cs => some (.element i jn.name jn.attrs jn.classes cs)

def rebuildForest : Nat → Store → List Nat → Option (List DomNode)
  | 0, _, _ => none
  | _ + 1, _, [] => some []
  | fuel + 1, st, i :: is =>
      match rebuildNode fuel st i with
      | none => none
      | some c =>
          match rebuildForest fuel st is with
          | none => none
          | some cs => some (c :: cs)
end

/-- Run the sibling joiner on a child forest of the engine: load it into a
store under a fresh parent id, join, and read the parent's children back. -/
def joinSiblingsOnForest (fuel : Nat) (tags : List String) (ts : List DomNode) :
    Option (List DomNode) :=
  let pid := forestMaxId ts + 1
  let st := storeOfForest pid ts
  match joinSiblings fuel st pid tags with
  | none => none
  | some st2 => rebuildForest fuel st2 (st2.childrenOf pid)

/-! ### The decision engine (sanitize-dom.js)

The engine is a family of mutually recursive fueled functions.  Fuel only
bounds recursion depth; every recursive call passes the predecessor, and
running out is the distinguished error Err.fuel.  Outcomes are expressed
relative to the node's position in its parent: kept means the node object
is still there (possibly mutated), detached means it was removed and the
listed replacement nodes stand in its former position. -/

inductive Err where
  | fuel
  | infiniteLoop (filterName : String)
deriving DecidableEq, Repr

instance {e a : Type} [DecidableEq e] [DecidableEq a] : DecidableEq (Except e a) := fun x y =>
  match x, y with
  | .ok v, .ok w => decidable_of_iff (v = w) (by simp)
  | .error v, .error w => decidable_of_iff (v = w) (by simp)
  | .ok _, .error _ => isFalse (by simp)
  | .error _, .ok _ => isFalse (by simp)

inductive FilterPhase where
  | notRemoved (node : DomNode)
  | removed (replacements : List DomNode)
deriving DecidableEq

inductive Outcome where
  | kept (node : DomNode)
  | detached (replacements : List DomNode)
deriving DecidableEq

mutual

/-- runFiltersOnNode (lines 243-301): consume skip_filters, then run the
filter list. -/
def runFiltersOnNode (opts : Opts) : Nat → List DomNode → DomNode → List Filter → Nat →
    SideTable → Except Err (FilterPhase × SideTable)
  | 0, _, _, _, _, _ => .error .fuel
  | fuel + 1, parents, node, filters, siblingIndex, st =>
      let skipFilters := st.skipFiltersTruthy node.id
      let st1 := st.deleteSkipFilters node.id
      if skipFilters then .ok (.notRemoved node, st1)
      else filtersLoop opts fuel parents node filters siblingIndex st1
  termination_by structural fuel _ _ _ _ _ => fuel

/-- The for loop over filters (lines 252-299). -/
def filtersLoop (opts : Opts) : Nat → List DomNode → DomNode → List Filter → Nat →
    SideTable → Except Err (FilterPhase × SideTable)
  | _, _, node, [], _, st => .ok (.notRemoved node, st)
  | 0, _, _, _ :: _, _, _ => .error .fuel
  | fuel + 1, parents, node, f :: fs, siblingIndex, st =>
      let ctx : FilterCtx :=
        { parents := parents, parentNodenames := parents.map DomNode.nodeName,
          siblingIndex := siblingIndex }
      match f.fn node ctx st with
      | (.same node2, st2) =>
          let skipF := st2.skipFiltersTruthy node2.id
          let st3 := st2.deleteSkipFilters node2.id
          if skipF then .ok (.notRemoved node2, st3)
          else filtersLoop opts fuel parents node2 fs siblingIndex st3
      | (.single r, st2) =>
          match processReplacements opts fuel parents node.nodeName f.name [r] 0 st2 with
          | .error e => .error e
          | .ok (l, st3) => .ok (.removed l, st3)
      | (.arr rs, st2) =>
          match processReplacements opts fuel parents node.nodeName f.name rs 0 st2 with
          | .error e => .error e
          | .ok (l, st3) => .ok (.removed l, st3)
      | (.null, st2) => .ok (.removed [], st2)
  termination_by structural fuel _ _ _ _ _ => fuel

/-- The replacements.forEach of lines 281-296: for each replacement, run
the infinite loop guard, then sanitize it; the returned list is what ends
up in the original node's former position. -/
def processReplacements (opts : Opts) : Nat → List DomNode → String → String → List DomNode →
    Nat → SideTable → Except Err (List DomNode × SideTable)
  | _, _, _, _, [], _, st => .ok ([], st)
  | 0, _, _, _, _ :: _, _, _ => .error .fuel
  | fuel + 1, parents, origName, filterName, r :: rs, index, st =>
      if r.nodeName == origName && !(st.definesSkipFilters r.id) then
        .error (.infiniteLoop filterName)
      else
        match sanitizeNode opts fuel parents true r index st with
        | .error e => .error e
        | .ok (out, st2) =>
            match processReplacements opts fuel parents origName filterName rs (index + 1) st2 with
            | .error e => .error e
            | .ok (l, st3) =>
                match out with
                | .kept n2 => .ok (n2 :: l, st3)
                | .detached l1 => .ok (l1 ++ l, st3)
  termination_by structural fuel _ _ _ _ _ _ => fuel

/-- sanitizeNode (lines 320-374): skip, filters, text, remove, flatten,
allow, default flatten, in that order. -/
def sanitizeNode (opts : Opts) : Nat → List DomNode → Bool → DomNode → Nat → SideTable →
    Except Err (Outcome × SideTable)
  | 0, _, _, _, _, _ => .error .fuel
  | fuel + 1, parents, hasParent, node, index, st =>
      if st.skipFlag node.id then .ok (.kept node, st.deleteSkip node.id)
      else
        let tagname := node.tagnameFor
        let filters := getValuesForTagname opts.filters_by_tag tagname
        match runFiltersOnNode opts fuel parents node filters index st with
        | .error e => .error e
        | .ok (.removed l, st2) => .ok (.detached l, st2)
        | .ok (.notRemoved node2, st2) =>
            if node2.isText then .ok (.kept node2, st2)
            else
              let headName := (parents.head?.map DomNode.nodeName).getD ""
              let parentNames := parents.map DomNode.nodeName
              if matchesAny opts.remove_tags_direct headName tagname
                  || parentNames.any (fun nm => matchesAny opts.remove_tags_deep nm tagname) then
                .ok (.detached [], st2)
              else if matchesAny opts.flatten_tags_direct headName tagname
                  || parentNames.any (fun nm => matchesAny opts.flatten_tags_deep nm tagname) then
                childNodesToSanitizedSiblings opts fuel parents hasParent node2 st2
              else if matchesAny opts.allow_tags_direct headName tagname
                  || parentNames.any (fun nm => matchesAny opts.allow_tags_deep nm tagname) then
                -- the source reads skip_classes and skip_attributes through the
                -- entry object fetched at function entry; the object is live, so
                -- the current table is consulted
                let n1 := if st2.skipClassesFlag node2.id then node2
                          else filterClassesForNode node2 opts.allow_classes_by_tag
                let n2 := if st2.skipAttributesFlag node2.id then n1
                          else filterAttributesForNode n1 opts.allow_attributes_by_tag
                match sanitizeChildNodes opts fuel (n2 :: parents) n2.children st2 with
                | .error e => .error e
                | .ok (cs, st3) => .ok (.kept (n2.setChildren cs), st3)
              else
                childNodesToSanitizedSiblings opts fuel parents hasParent node2 st2
  termination_by structural fuel _ _ _ _ _ => fuel

/-- childNodesToSanitizedSiblings (lines 304-318), the flatten operation:
nothing happens for a parentless node; otherwise the children are
sanitized inside a fragment and take the node's place. -/
def childNodesToSanitizedSiblings (opts : Opts) : Nat → List DomNode → Bool → DomNode →
    SideTable → Except Err (Outcome × SideTable)
  | 0, _, _, _, _ => .error .fuel
  | fuel + 1, parents, hasParent, node, st =>
      if !hasParent then .ok (.kept node, st)
      else
        match sanitizeChildNodes opts fuel parents node.children st with
        | .error e => .error e
        | .ok (l, st2) => .ok (.detached l, st2)
  termination_by structural fuel _ _ _ _ => fuel

/-- sanitizeChildNodes (lines 376-393): process the snapshot of children
left to right, apply the remove_empty pruning per child, then the sibling
joiner once. -/
def sanitizeChildNodes (opts : Opts) : Nat → List DomNode → List DomNode → SideTable →
    Except Err (List DomNode × SideTable)
  | 0, _, _, _ => .error .fuel
  | fuel + 1, parents, children, st =>
      match childNodesLoop opts fuel parents children 0 st with
      | .error e => .error e
      | .ok (l, st2) =>
          if opts.join_siblings.isEmpty then .ok (l, st2)
          else
            match joinSiblingsOnForest fuel opts.join_siblings l with
            | none => .error .fuel
            | some l2 => .ok (l2, st2)
  termination_by structural fuel _ _ _ => fuel

/-- The for loop of sanitizeChildNodes (lines 378-390): sanitize the child
at its snapshot index, then detach it when remove_empty applies; a child
the engine already detached is a no-op for the pruning. -/
def childNodesLoop (opts : Opts) : Nat → List DomNode → List DomNode → Nat → SideTable →
    Except Err (List DomNode × SideTable)
  | _, _, [], _, st => .ok ([], st)
  | 0, _, _ :: _, _, _ => .error .fuel
  | fuel + 1, parents, c :: cs, i, st =>
      match sanitizeNode opts fuel parents true c i st with
      | .error e => .error e
      | .ok (out, st2) =>
          let contrib :=
            match out with
            | .kept n2 =>
                if opts.remove_empty && !n2.isText
                    && !(opts.allowed_empty_tags.contains n2.nodeName)
                    && n2.children.isEmpty then ([] : List DomNode)
                else [n2]
            | .detached l1 => l1
          match childNodesLoop opts fuel parents cs (i + 1) st2 with
          | .error e => .error e
          | .ok (l, st3) => .ok (contrib ++ l, st3)
  termination_by structural fuel _ _ _ _ => fuel

end

/-- sanitizeDom (lines 212-411), after the interface checks: push the
context node onto the ancestor chain, then process either the context
node itself or only its children. -/
def sanitizeDom (opts : Opts) (fuel : Nat) (context : DomNode) (contextHasParent : Bool)
    (childrenOnly : Bool) (st : SideTable) : Except Err (Outcome × SideTable) :=
  let parents := [context]
  if childrenOnly then
    match sanitizeChildNodes opts fuel parents context.children st with
    | .error e => .error e
    | .ok (l, st2) => .ok (.kept (context.setChildren l), st2)
  else
    sanitizeNode opts fuel parents contextHasParent context 0 st

/-! ### Measures and derived node functions used by the lemmas -/

mutual
def idsOfN : DomNode → List Nat
  | .text i _ => [i]
  | .element i _ _ _ cs => i :: idsOfL cs

def idsOfL : List DomNode → List Nat
  | [] => []
  | c :: cs => idsOfN c ++ idsOfL cs
end

mutual
def sizeN : DomNode → Nat
  | .text _ _ => 1
  | .element _ _ _ _ cs => 1 + sizeL cs

def sizeL : List DomNode → Nat
  | [] => 0
  | c :: cs => 1 + sizeN c + sizeL cs
end

mutual
def textsOfN : DomNode → List DomNode
  | .text i s => [.text i s]
  | .element _ _ _ _ cs => textsOfL cs

def textsOfL : List DomNode → List DomNode
  | [] => []
  | c :: cs => textsOfN c ++ textsOfL cs
end

/-- The node after the attribute and class filtering of the allow branch
(sanitize-dom.js lines 357-363), as visible to the child recursion. -/
def allowN2 (opts : Opts) (st2 : SideTable) (node : DomNode) : DomNode :=
  let n1 := if st2.skipClassesFlag node.id then node
            else filterClassesForNode node opts.allow_classes_by_tag
  if st2.skipAttributesFlag node.id then n1
  else filterAttributesForNode n1 opts.allow_attributes_by_tag

/-- No position of the parent's child list admits a join: every
decomposition of the child list gives a scan step that performs nothing. -/
def NoAdj (st : Store) (parent : Nat) (tags : List String) : Prop :=
  ∀ pre n rest, st.childrenOf parent = pre ++ n :: rest →
    joinStep st tags n rest = none

/-! ### Side table lemmas -/

theorem SideTable.lookup_update_self (st : SideTable) (i : Nat) (f : NodeProps → NodeProps) :
    (st.update i f).lookup i = (st.lookup i).map f := by
  induction st with
  | nil => rfl
  | cons e rest ih =>
      by_cases h : e.1 = i
      · simp [SideTable.update, SideTable.lookup, h]
      · simp [SideTable.update, SideTable.lookup, h, ih]

theorem SideTable.lookup_update_ne (st : SideTable) (i j : Nat) (f : NodeProps → NodeProps)
    (h : j ≠ i) : (st.update i f).lookup j = st.lookup j := by
  induction st with
  | nil => rfl
  | cons e rest ih =>
      by_cases he : e.1 = i
      · simp [SideTable.update, SideTable.lookup, he, Ne.symm h, ih]
      · by_cases hj : e.1 = j <;> simp [SideTable.update, SideTable.lookup, he, hj, h, ih]

theorem SideTable.skipFlag_deleteSkip (st : SideTable) (i : Nat) :
    (st.deleteSkip i).skipFlag i = false := by
  unfold SideTable.skipFlag SideTable.deleteSkip
  rw [SideTable.lookup_update_self]
  cases st.lookup i <;> simp

theorem SideTable.definesSkipFilters_deleteSkipFilters (st : SideTable) (i : Nat) :
    (st.deleteSkipFilters i).definesSkipFilters i = false := by
  unfold SideTable.definesSkipFilters SideTable.deleteSkipFilters
  rw [SideTable.lookup_update_self]
  cases st.lookup i <;> simp

/-! ### Engine unfolding helpers -/

/-- The filter pipeline with no matching filter: the entry read still
deletes skip_filters, and the node is reported as not removed. -/
theorem runFiltersOnNode_nil (opts : Opts) (fuel : Nat) (parents : List DomNode)
    (node : DomNode) (idx : Nat) (st : SideTable) :
    runFiltersOnNode opts (fuel + 1) parents node [] idx st =
      .ok (.notRemoved node, st.deleteSkipFilters node.id) := by
  cases h : st.skipFiltersTruthy node.id <;> simp [runFiltersOnNode, filtersLoop, h]

end SanitizeDom

namespace SanitizeDom

/-! ### Claims -/

/-- C7: for every node whose side-table entry has the skip flag set when
the Decision Engine visits it, the engine clears that flag and returns
without touching the node or any node in its subtree (the node value,
hence tag, attributes, classes, children and the whole subtree, is the one
passed in), the only side-table change is clearing that flag, and the flag
is no longer set afterward (one-shot consumption). -/
theorem claim_C7_side_table_skip_one_shot (opts : Opts) (fuel : Nat)
    (parents : List DomNode) (hasParent : Bool) (node : DomNode) (index : Nat)
    (st : SideTable) (p : NodeProps) (hlook : st.lookup node.id = some p)
    (hskip : p.skip = true) :
    sanitizeNode opts (fuel + 1) parents hasParent node index st =
      .ok (.kept node, st.deleteSkip node.id) ∧
    (st.deleteSkip node.id).skipFlag node.id = false := by
  constructor
  · simp [sanitizeNode, SideTable.skipFlag, hlook, hskip]
  · exact SideTable.skipFlag_deleteSkip st node.id

/-- Witness for C7 at a concrete input: a DIV with a child, a skip flag on
its entry, visited by the engine; the node and subtree survive unchanged
and only the flag is cleared. -/
theorem claim_C7_side_table_skip_one_shot_witness :
    (([(5, { skip := true, skip_classes := true })] : SideTable).lookup 5 =
        some { skip := true, skip_classes := true }) ∧
    ({ skip := true, skip_classes := true } : NodeProps).skip = true ∧
    sanitizeNode {} 1 [] true (.element 5 "DIV" ["id"] ["c"] [.text 6 "x"]) 0
        [(5, { skip := true, skip_classes := true })] =
      .ok (.kept (.element 5 "DIV" ["id"] ["c"] [.text 6 "x"]),
        [(5, { skip_classes := true })]) ∧
    SideTable.skipFlag [(5, { skip_classes := true })] 5 = false := by
  refine ⟨rfl, rfl, ?_⟩
  have h := claim_C7_side_table_skip_one_shot {} 0 [] true
    (.element 5 "DIV" ["id"] ["c"] [.text 6 "x"]) 0
    [(5, { skip := true, skip_classes := true })] { skip := true, skip_classes := true } rfl rfl
  exact ⟨h.1.trans (by decide), by decide⟩

end SanitizeDom

namespace SanitizeDom

/-- C8: a filter returning an empty array causes the node to be detached
with zero replacements inserted, behaviourally identical to returning
null, and never triggers the infinite loop guard: with the same filter
context and side-table effect, the run with an empty-array result and the
run with a null result both succeed with the removed outcome and no
replacements. -/
theorem claim_C8_empty_array_like_null (opts : Opts) (fuel : Nat)
    (parents : List DomNode) (node : DomNode) (idx : Nat) (st stA : SideTable)
    (fA fN : Filter)
    (hA : fA.fn node
      { parents := parents, parentNodenames := parents.map DomNode.nodeName,
        siblingIndex := idx } (st.deleteSkipFilters node.id) = (.arr [], stA))
    (hN : fN.fn node
      { parents := parents, parentNodenames := parents.map DomNode.nodeName,
        siblingIndex := idx } (st.deleteSkipFilters node.id) = (.null, stA))
    (hsf : st.skipFiltersTruthy node.id = false) :
    runFiltersOnNode opts (fuel + 2) parents node [fA] idx st = .ok (.removed [], stA) ∧
    runFiltersOnNode opts (fuel + 2) parents node [fN] idx st = .ok (.removed [], stA) := by
  constructor
  · simp [runFiltersOnNode, hsf, filtersLoop, hA, processReplacements]
  · simp [runFiltersOnNode, hsf, filtersLoop, hN]

/-- Witness for C8 at a concrete input: a filter on a B element returning
an empty array and one returning null produce the same removed-no-
replacements outcome. -/
theorem claim_C8_empty_array_like_null_witness :
    runFiltersOnNode {} 2 [] (.element 1 "B" [] [] [])
        [{ name := "emptyArr", fn := fun _ _ st => (.arr [], st) }] 0 [] =
      .ok (.removed [], []) ∧
    runFiltersOnNode {} 2 [] (.element 1 "B" [] [] [])
        [{ name := "toNull", fn := fun _ _ st => (.null, st) }] 0 [] =
      .ok (.removed [], []) := by
  exact claim_C8_empty_array_like_null {} 0 [] (.element 1 "B" [] [] []) 0 [] []
    { name := "emptyArr", fn := fun _ _ st => (.arr [], st) }
    { name := "toNull", fn := fun _ _ st => (.null, st) } rfl rfl rfl

end SanitizeDom

namespace SanitizeDom

/-- C1: the Decision Engine evaluates the branches in the fixed order
filter pipeline, remove, flatten, allow, default flatten, terminating at
the first match: (1) for an element with no matching filter and no
matching remove rule whose tag matches a flatten rule against the current
ancestor chain, the visit is exactly the flatten operation, regardless of
the allow rules (so a tag matched by both a flatten spec and an allow spec
against the same chain is flattened), and the node is never kept; (2) when
a remove rule matches, the node is removed regardless of the flatten and
allow rules; (3) when a matching filter removes the node, the rule
branches are never consulted at all. -/
theorem claim_C1_flatten_beats_allow (opts : Opts) (fuel : Nat) (parents : List DomNode)
    (node : DomNode) (index : Nat) (st : SideTable)
    (hskip : st.skipFlag node.id = false)
    (hfil : opts.filters_by_tag = [])
    (hel : node.isText = false)
    (hrem : (matchesAny opts.remove_tags_direct
        ((parents.head?.map DomNode.nodeName).getD "") node.tagnameFor
      || (parents.map DomNode.nodeName).any
        (fun nm => matchesAny opts.remove_tags_deep nm node.tagnameFor)) = false)
    (hflat : (matchesAny opts.flatten_tags_direct
        ((parents.head?.map DomNode.nodeName).getD "") node.tagnameFor
      || (parents.map DomNode.nodeName).any
        (fun nm => matchesAny opts.flatten_tags_deep nm node.tagnameFor)) = true) :
    (sanitizeNode opts (fuel + 2) parents true node index st =
      childNodesToSanitizedSiblings opts (fuel + 1) parents true node
        (st.deleteSkipFilters node.id) ∧
    ∀ n st2, sanitizeNode opts (fuel + 2) parents true node index st ≠
      .ok (.kept n, st2)) ∧
    (∀ (opts2 : Opts) (fuel2 : Nat) (parents2 : List DomNode) (node2 : DomNode)
        (idx2 : Nat) (st2 : SideTable),
      st2.skipFlag node2.id = false → opts2.filters_by_tag = [] →
      node2.isText = false →
      (matchesAny opts2.remove_tags_direct
          ((parents2.head?.map DomNode.nodeName).getD "") node2.tagnameFor
        || (parents2.map DomNode.nodeName).any
          (fun nm => matchesAny opts2.remove_tags_deep nm node2.tagnameFor)) = true →
      sanitizeNode opts2 (fuel2 + 2) parents2 true node2 idx2 st2 =
        .ok (.detached [], st2.deleteSkipFilters node2.id)) ∧
    (∀ (opts3 : Opts) (fuel3 : Nat) (parents3 : List DomNode) (node3 : DomNode)
        (idx3 : Nat) (st3 st4 : SideTable) (f : Filter),
      getValuesForTagname opts3.filters_by_tag node3.tagnameFor = [f] →
      st3.skipFlag node3.id = false →
      st3.skipFiltersTruthy node3.id = false →
      f.fn node3
        { parents := parents3, parentNodenames := parents3.map DomNode.nodeName,
          siblingIndex := idx3 } (st3.deleteSkipFilters node3.id) = (.null, st4) →
      sanitizeNode opts3 (fuel3 + 3) parents3 true node3 idx3 st3 =
        .ok (.detached [], st4)) := by
  refine ⟨?_, fun opts2 fuel2 parents2 node2 idx2 st2 hskip2 hfil2 hel2 hrem2 => ?_,
    fun opts3 fuel3 parents3 node3 idx3 st3 st4 f hfl3 hskip3 hsf3 hnull3 => ?_⟩
  · have hrun : sanitizeNode opts (fuel + 2) parents true node index st =
        childNodesToSanitizedSiblings opts (fuel + 1) parents true node
          (st.deleteSkipFilters node.id) := by
      rw [show fuel + 2 = (fuel + 1) + 1 from rfl]
      simp only [sanitizeNode, hskip, hfil]
      rw [show getValuesForTagname ([] : List (Regex × List Filter)) node.tagnameFor =
        [] from rfl]
      rw [runFiltersOnNode_nil]
      simp [hel, hrem, hflat]
    refine ⟨hrun, fun n st2 h => ?_⟩
    rw [hrun] at h
    simp only [childNodesToSanitizedSiblings] at h
    cases hinner : sanitizeChildNodes opts fuel parents node.children
        (st.deleteSkipFilters node.id) with
    | error e => rw [hinner] at h; exact absurd h (by simp)
    | ok res => rw [hinner] at h; exact absurd h (by simp)
  · rw [show fuel2 + 2 = (fuel2 + 1) + 1 from rfl]
    simp only [sanitizeNode, hskip2, hfil2]
    rw [show getValuesForTagname ([] : List (Regex × List Filter)) node2.tagnameFor =
      [] from rfl]
    rw [runFiltersOnNode_nil]
    simp [hel2, hrem2]
  · rw [show fuel3 + 3 = (fuel3 + 2) + 1 from rfl]
    simp only [sanitizeNode, hskip3, hfl3]
    simp only [runFiltersOnNode, hsf3, Bool.false_eq_true, if_false, filtersLoop,
      hnull3]

/-- Witness for C1 at the spec's example: with flatten_tags_deep and
allow_tags_direct both matching everything, a B inside BODY is flattened
(its text takes its place), never kept. -/
theorem claim_C1_flatten_beats_allow_witness :
    (SideTable.skipFlag [] 1 = false) ∧
    sanitizeNode
      { flatten_tags_deep := [(Regex.dotStar, [Regex.dotStar])],
        allow_tags_direct := [(Regex.dotStar, [Regex.dotStar])] } 6
      [.element 0 "BODY" [] [] []] true (.element 1 "B" [] [] [.text 2 "x"]) 0 [] =
      .ok (.detached [.text 2 "x"], []) := by
  have h := claim_C1_flatten_beats_allow
    { flatten_tags_deep := [(Regex.dotStar, [Regex.dotStar])],
      allow_tags_direct := [(Regex.dotStar, [Regex.dotStar])] } 4
    [.element 0 "BODY" [] [] []] (.element 1 "B" [] [] [.text 2 "x"]) 0 []
    rfl rfl rfl (by decide) (by decide)
  exact ⟨rfl, h.1.1.trans (by decide)⟩

end SanitizeDom

namespace SanitizeDom

/-- C9: with childrenOnly false, the context node itself is pushed onto
the ancestor chain before it is processed, so for the root the direct
rules see the root's own tag as the parent tag and the deep rules range
over the one-element chain holding the root's own tag: a remove rule that
matches the root's tag against the root's own tag (directly or deeply)
removes the root. -/
theorem claim_C9_root_is_own_parent (opts : Opts) (fuel : Nat) (root : DomNode)
    (hp : Bool) (st : SideTable)
    (hskip : st.skipFlag root.id = false)
    (hfil : opts.filters_by_tag = [])
    (hel : root.isText = false)
    (hrem : (matchesAny opts.remove_tags_direct root.nodeName root.nodeName
      || matchesAny opts.remove_tags_deep root.nodeName root.nodeName) = true) :
    sanitizeDom opts (fuel + 2) root hp false st =
      .ok (.detached [], st.deleteSkipFilters root.id) := by
  have htag : root.tagnameFor = root.nodeName := by
    unfold DomNode.tagnameFor
    rw [hel]
    rfl
  simp only [sanitizeDom, if_neg (by simp : ¬(false = true))]
  rw [show fuel + 2 = (fuel + 1) + 1 from rfl]
  simp only [sanitizeNode, hskip, hfil]
  rw [show getValuesForTagname ([] : List (Regex × List Filter)) root.tagnameFor =
    [] from rfl]
  rw [runFiltersOnNode_nil]
  simp [hel, htag, hrem]

/-- Witness for C9 at a concrete input: a parentless DIV root processed
with childrenOnly false and remove_tags_direct DIV-in-DIV is removed,
because the chain below it consists of the root itself. -/
theorem claim_C9_root_is_own_parent_witness :
    sanitizeDom { remove_tags_direct := [(Regex.lit "DIV", [Regex.lit "DIV"])] } 2
      (.element 1 "DIV" [] [] [.text 2 "x"]) false false [] =
      .ok (.detached [], []) := by
  have h := claim_C9_root_is_own_parent
    { remove_tags_direct := [(Regex.lit "DIV", [Regex.lit "DIV"])] } 0
    (.element 1 "DIV" [] [] [.text 2 "x"]) false [] rfl rfl rfl (by decide)
  exact h.trans (by decide)

end SanitizeDom

namespace SanitizeDom

/-- C6: with remove_empty enabled (and the joiner disabled), after a child
kept in the tree has been processed, it is detached exactly when it is an
element (non-text) node, its tag is not in allowed_empty_tags, and it has
zero children at that moment; in particular an element that still contains
a child node, even a now-empty allowed-empty element, is not detached. -/
theorem claim_C6_remove_empty_exact (opts : Opts) (fuel : Nat)
    (parents : List DomNode) (c : DomNode) (st st2 : SideTable) (n2 : DomNode)
    (hre : opts.remove_empty = true)
    (hjoin : opts.join_siblings = [])
    (hrun : sanitizeNode opts fuel parents true c 0 st = .ok (.kept n2, st2)) :
    sanitizeChildNodes opts (fuel + 2) parents [c] st =
      .ok ((if !n2.isText && !(opts.allowed_empty_tags.contains n2.nodeName)
          && n2.children.isEmpty then [] else [n2]), st2) := by
  rw [show fuel + 2 = (fuel + 1) + 1 from rfl]
  simp only [sanitizeChildNodes, childNodesLoop, hrun, hre, hjoin]
  cases h : !n2.isText && !(opts.allowed_empty_tags.contains n2.nodeName)
      && n2.children.isEmpty <;> simp [h] <;> simp_all

/-- Witness for C6 at a concrete input: an allowed (kept) DIV that ends up
with zero children is pruned under remove_empty. -/
theorem claim_C6_remove_empty_exact_witness :
    sanitizeNode
      { allow_tags_direct := [(Regex.dotStar, [Regex.dotStar])], remove_empty := true } 3
      [.element 0 "BODY" [] [] []] true (.element 1 "DIV" [] [] []) 0 [] =
      .ok (.kept (.element 1 "DIV" [] [] []), []) ∧
    sanitizeChildNodes
      { allow_tags_direct := [(Regex.dotStar, [Regex.dotStar])], remove_empty := true } 5
      [.element 0 "BODY" [] [] []] [.element 1 "DIV" [] [] []] [] =
      .ok ([], []) := by
  have h := claim_C6_remove_empty_exact
    { allow_tags_direct := [(Regex.dotStar, [Regex.dotStar])], remove_empty := true } 3
    [.element 0 "BODY" [] [] []] (.element 1 "DIV" [] [] []) [] [] (.element 1 "DIV" [] [] [])
    rfl rfl (by decide)
  exact ⟨by decide, h.trans (by decide)⟩

end SanitizeDom

namespace SanitizeDom

/-! ### Ids of a subtree, and which table entries a run can touch -/

theorem DomNode.id_mem_idsOfN (n : DomNode) : n.id ∈ idsOfN n := by
  cases n <;> simp [idsOfN, DomNode.id]

theorem idsOfL_children_subset (n : DomNode) (i : Nat) (h : i ∈ idsOfL n.children) :
    i ∈ idsOfN n := by
  cases n with
  | text _ _ => simp [DomNode.children, idsOfL] at h
  | element _ _ _ _ cs => simpa [DomNode.children, idsOfN] using Or.inr h

theorem SideTable.definesSkipFilters_deleteSkipFilters_mono (st : SideTable) (j i : Nat)
    (h : (st.deleteSkipFilters j).definesSkipFilters i = true) :
    st.definesSkipFilters i = true := by
  by_cases hij : i = j
  · subst hij
    rw [SideTable.definesSkipFilters_deleteSkipFilters] at h
    exact absurd h (by simp)
  · unfold SideTable.definesSkipFilters at h ⊢
    rwa [SideTable.deleteSkipFilters, SideTable.lookup_update_ne st j i _ hij] at h

theorem SideTable.definesSkipFilters_deleteSkip (st : SideTable) (j i : Nat) :
    (st.deleteSkip j).definesSkipFilters i = st.definesSkipFilters i := by
  by_cases hij : i = j
  · subst hij
    unfold SideTable.definesSkipFilters SideTable.deleteSkip
    rw [SideTable.lookup_update_self]
    cases st.lookup i <;> simp
  · unfold SideTable.definesSkipFilters
    rw [SideTable.deleteSkip, SideTable.lookup_update_ne st j i _ hij]

theorem SideTable.lookup_deleteSkipFilters_ne (st : SideTable) (j i : Nat) (h : i ≠ j) :
    (st.deleteSkipFilters j).lookup i = st.lookup i :=
  SideTable.lookup_update_ne st j i _ h

theorem SideTable.lookup_deleteSkip_ne (st : SideTable) (j i : Nat) (h : i ≠ j) :
    (st.deleteSkip j).lookup i = st.lookup i :=
  SideTable.lookup_update_ne st j i _ h

end SanitizeDom

namespace SanitizeDom

theorem filterClassesForNode_id (n : DomNode) (s : ParentChildSpec) :
    (filterClassesForNode n s).id = n.id := by
  cases n <;> simp [filterClassesForNode, DomNode.id]

theorem filterClassesForNode_children (n : DomNode) (s : ParentChildSpec) :
    (filterClassesForNode n s).children = n.children := by
  cases n <;> simp [filterClassesForNode, DomNode.children]

theorem filterAttributesForNode_id (n : DomNode) (s : ParentChildSpec) :
    (filterAttributesForNode n s).id = n.id := by
  cases n <;> simp [filterAttributesForNode, DomNode.id]

theorem filterAttributesForNode_children (n : DomNode) (s : ParentChildSpec) :
    (filterAttributesForNode n s).children = n.children := by
  cases n <;> simp [filterAttributesForNode, DomNode.children]

theorem allowN2_id (opts : Opts) (st2 : SideTable) (node : DomNode) :
    (allowN2 opts st2 node).id = node.id := by
  unfold allowN2
  by_cases h1 : st2.skipClassesFlag node.id <;>
    by_cases h2 : st2.skipAttributesFlag node.id <;>
      simp [h1, h2, filterClassesForNode_id, filterAttributesForNode_id]

theorem allowN2_children (opts : Opts) (st2 : SideTable) (node : DomNode) :
    (allowN2 opts st2 node).children = node.children := by
  unfold allowN2
  by_cases h1 : st2.skipClassesFlag node.id <;>
    by_cases h2 : st2.skipAttributesFlag node.id <;>
      simp [h1, h2, filterClassesForNode_children, filterAttributesForNode_children]

/-- With no filters configured, an engine run can fail only for fuel, it
never defines a skip_filters flag that was undefined, and it leaves every
side-table entry outside the processed subtree untouched. -/
theorem enginePurity (opts : Opts) (hfil : opts.filters_by_tag = []) : ∀ fuel : Nat,
    (∀ parents hp node idx st,
      (∀ e, sanitizeNode opts fuel parents hp node idx st = .error e → e = .fuel) ∧
      (∀ out st', sanitizeNode opts fuel parents hp node idx st = .ok (out, st') →
        (∀ i, st'.definesSkipFilters i = true → st.definesSkipFilters i = true) ∧
        (∀ i, i ∉ idsOfN node → st'.lookup i = st.lookup i)))
  ∧ (∀ parents hp node st,
      (∀ e, childNodesToSanitizedSiblings opts fuel parents hp node st = .error e →
        e = .fuel) ∧
      (∀ out st', childNodesToSanitizedSiblings opts fuel parents hp node st =
          .ok (out, st') →
        (∀ i, st'.definesSkipFilters i = true → st.definesSkipFilters i = true) ∧
        (∀ i, i ∉ idsOfN node → st'.lookup i = st.lookup i)))
  ∧ (∀ parents children st,
      (∀ e, sanitizeChildNodes opts fuel parents children st = .error e → e = .fuel) ∧
      (∀ out st', sanitizeChildNodes opts fuel parents children st = .ok (out, st') →
        (∀ i, st'.definesSkipFilters i = true → st.definesSkipFilters i = true) ∧
        (∀ i, i ∉ idsOfL children → st'.lookup i = st.lookup i)))
  ∧ (∀ parents children idx st,
      (∀ e, childNodesLoop opts fuel parents children idx st = .error e → e = .fuel) ∧
      (∀ out st', childNodesLoop opts fuel parents children idx st = .ok (out, st') →
        (∀ i, st'.definesSkipFilters i = true → st.definesSkipFilters i = true) ∧
        (∀ i, i ∉ idsOfL children → st'.lookup i = st.lookup i))) := by
  intro fuel
  induction fuel with
  | zero =>
      refine ⟨fun parents hp node idx st => ⟨fun e he => ?_, fun out st' h => ?_⟩,
        fun parents hp node st => ⟨fun e he => ?_, fun out st' h => ?_⟩,
        fun parents children st => ⟨fun e he => ?_, fun out st' h => ?_⟩,
        fun parents children idx st => ⟨fun e he => ?_, fun out st' h => ?_⟩⟩
      · simpa [sanitizeNode] using he.symm
      · simp [sanitizeNode] at h
      · simpa [childNodesToSanitizedSiblings] using he.symm
      · simp [childNodesToSanitizedSiblings] at h
      · simpa [sanitizeChildNodes] using he.symm
      · simp [sanitizeChildNodes] at h
      · cases children with
        | nil => simp [childNodesLoop] at he
        | cons c cs => simpa [childNodesLoop] using he.symm
      · cases children with
        | nil =>
            simp [childNodesLoop] at h
            obtain ⟨-, h2⟩ := h
            subst h2
            exact ⟨fun i hh => hh, fun i _ => rfl⟩
        | cons c cs => simp [childNodesLoop] at h
  | succ fuel ih =>
      obtain ⟨ihN, ihC, ihS, ihL⟩ := ih
      refine ⟨fun parents hp node idx st => ?_,
        fun parents hp node st => ?_,
        fun parents children st => ?_,
        fun parents children idx st => ?_⟩
      · -- sanitizeNode
        by_cases hskip : st.skipFlag node.id = true
        · refine ⟨fun e he => ?_, fun out st' h => ?_⟩
          · simp [sanitizeNode, hskip] at he
          · simp [sanitizeNode, hskip] at h
            refine ⟨fun i hh => ?_, fun i hi => ?_⟩
            · rw [← h.2, SideTable.definesSkipFilters_deleteSkip] at hh
              exact hh
            · rw [← h.2]
              exact SideTable.lookup_deleteSkip_ne st node.id i
                (fun hc => hi (hc ▸ DomNode.id_mem_idsOfN node))
        · rw [Bool.not_eq_true] at hskip
          cases fuel with
          | zero =>
              refine ⟨fun e he => ?_, fun out st' h => ?_⟩
              · simp [sanitizeNode, hskip, hfil, getValuesForTagname,
                  runFiltersOnNode] at he
                exact he.symm
              · simp [sanitizeNode, hskip, hfil, getValuesForTagname,
                  runFiltersOnNode] at h
          | succ g =>
              have hbody : sanitizeNode opts (g + 1 + 1) parents hp node idx st =
                  (if node.isText then
                    .ok (.kept node, st.deleteSkipFilters node.id)
                  else if matchesAny opts.remove_tags_direct
                      ((parents.head?.map DomNode.nodeName).getD "") node.tagnameFor
                      || (parents.map DomNode.nodeName).any
                        (fun nm => matchesAny opts.remove_tags_deep nm node.tagnameFor) then
                    .ok (.detached [], st.deleteSkipFilters node.id)
                  else if matchesAny opts.flatten_tags_direct
                      ((parents.head?.map DomNode.nodeName).getD "") node.tagnameFor
                      || (parents.map DomNode.nodeName).any
                        (fun nm => matchesAny opts.flatten_tags_deep nm node.tagnameFor) then
                    childNodesToSanitizedSiblings opts (g + 1) parents hp node
                      (st.deleteSkipFilters node.id)
                  else if matchesAny opts.allow_tags_direct
                      ((parents.head?.map DomNode.nodeName).getD "") node.tagnameFor
                      || (parents.map DomNode.nodeName).any
                        (fun nm => matchesAny opts.allow_tags_deep nm node.tagnameFor) then
                    (match sanitizeChildNodes opts (g + 1)
                        (allowN2 opts (st.deleteSkipFilters node.id) node :: parents)
                        (allowN2 opts (st.deleteSkipFilters node.id) node).children
                        (st.deleteSkipFilters node.id) with
                     | .error e => .error e
                     | .ok (cs, st3) =>
                        .ok (.kept ((allowN2 opts (st.deleteSkipFilters node.id)
                          node).setChildren cs), st3))
                  else
                    childNodesToSanitizedSiblings opts (g + 1) parents hp node
                      (st.deleteSkipFilters node.id)) := by
                simp only [sanitizeNode, hskip, hfil]
                rw [show getValuesForTagname ([] : List (Regex × List Filter))
                  node.tagnameFor = [] from rfl]
                rw [runFiltersOnNode_nil]
                simp only [Bool.false_eq_true, if_false]
                rfl
              have hmonoD : ∀ i, (st.deleteSkipFilters node.id).definesSkipFilters i = true →
                  st.definesSkipFilters i = true :=
                fun i => SideTable.definesSkipFilters_deleteSkipFilters_mono st node.id i
              have hlookD : ∀ i, i ∉ idsOfN node →
                  (st.deleteSkipFilters node.id).lookup i = st.lookup i :=
                fun i hi => SideTable.lookup_deleteSkipFilters_ne st node.id i
                  (fun hc => hi (hc ▸ DomNode.id_mem_idsOfN node))
              refine ⟨fun e he => ?_, fun out st' h => ?_⟩
              · rw [hbody] at he
                split at he
                · simp at he
                · split at he
                  · simp at he
                  · split at he
                    · exact (ihC parents hp node (st.deleteSkipFilters node.id)).1 e he
                    · split at he
                      · split at he
                        · next e2 heq =>
                            simp at he
                            exact he ▸ (ihS _ _ _).1 e2 heq
                        · next cs3 st3 heq => simp at he
                      · exact (ihC parents hp node (st.deleteSkipFilters node.id)).1 e he
              · rw [hbody] at h
                split at h
                · simp at h
                  obtain ⟨-, h2⟩ := h
                  refine ⟨fun i hh => ?_, fun i hi => ?_⟩
                  · rw [← h2] at hh
                    exact hmonoD i hh
                  · rw [← h2]
                    exact hlookD i hi
                · split at h
                  · simp at h
                    obtain ⟨-, h2⟩ := h
                    refine ⟨fun i hh => ?_, fun i hi => ?_⟩
                    · rw [← h2] at hh
                      exact hmonoD i hh
                    · rw [← h2]
                      exact hlookD i hi
                  · split at h
                    · obtain ⟨m, f⟩ :=
                        (ihC parents hp node (st.deleteSkipFilters node.id)).2 out st' h
                      exact ⟨fun i hh => hmonoD i (m i hh),
                        fun i hi => (f i hi).trans (hlookD i hi)⟩
                    · split at h
                      · split at h
                        · next e2 heq => simp at h
                        · next cs3 st3 heq =>
                            simp at h
                            obtain ⟨-, h2⟩ := h
                            obtain ⟨m, f⟩ := (ihS _ _ _).2 cs3 st3 heq
                            refine ⟨fun i hh => ?_, fun i hi => ?_⟩
                            · rw [← h2] at hh
                              exact hmonoD i (m i hh)
                            · rw [← h2]
                              have hni : i ∉ idsOfL (allowN2 opts
                                  (st.deleteSkipFilters node.id) node).children := by
                                rw [allowN2_children]
                                exact fun hc => hi (idsOfL_children_subset node i hc)
                              exact (f i hni).trans (hlookD i hi)
                      · obtain ⟨m, f⟩ :=
                          (ihC parents hp node (st.deleteSkipFilters node.id)).2 out st' h
                        exact ⟨fun i hh => hmonoD i (m i hh),
                          fun i hi => (f i hi).trans (hlookD i hi)⟩
      · -- childNodesToSanitizedSiblings
        cases hp with
        | false =>
            refine ⟨fun e he => ?_, fun out st' h => ?_⟩
            · simp [childNodesToSanitizedSiblings] at he
            · simp [childNodesToSanitizedSiblings] at h
              obtain ⟨-, h2⟩ := h
              refine ⟨fun i hh => ?_, fun i hi => ?_⟩
              · rw [← h2] at hh
                exact hh
              · rw [← h2]
        | true =>
            refine ⟨fun e he => ?_, fun out st' h => ?_⟩
            · simp only [childNodesToSanitizedSiblings, Bool.not_true,
                Bool.false_eq_true, if_false] at he
              split at he
              · next e2 heq =>
                  simp at he
                  exact he ▸ (ihS _ _ _).1 e2 heq
              · next l st2 heq => simp at he
            · simp only [childNodesToSanitizedSiblings, Bool.not_true,
                Bool.false_eq_true, if_false] at h
              split at h
              · next e2 heq => simp at h
              · next l st2 heq =>
                  simp at h
                  obtain ⟨-, h2⟩ := h
                  obtain ⟨m, f⟩ := (ihS _ _ _).2 l st2 heq
                  refine ⟨fun i hh => ?_, fun i hi => ?_⟩
                  · rw [← h2] at hh
                    exact m i hh
                  · rw [← h2]
                    exact f i (fun hc => hi (idsOfL_children_subset node i hc))
      · -- sanitizeChildNodes
        refine ⟨fun e he => ?_, fun out st' h => ?_⟩
        · simp only [sanitizeChildNodes] at he
          split at he
          · next e2 heq =>
              simp at he
              exact he ▸ (ihL _ _ _ _).1 e2 heq
          · next l st2 heq =>
              split at he
              · simp at he
              · split at he
                · simp at he
                  exact he.symm
                · simp at he
        · simp only [sanitizeChildNodes] at h
          split at h
          · next e2 heq => simp at h
          · next l st2 heq =>
              obtain ⟨m, f⟩ := (ihL _ _ _ _).2 l st2 heq
              split at h
              · simp at h
                obtain ⟨-, h2⟩ := h
                refine ⟨fun i hh => ?_, fun i hi => ?_⟩
                · rw [← h2] at hh
                  exact m i hh
                · rw [← h2]
                  exact f i hi
              · split at h
                · simp at h
                · simp at h
                  obtain ⟨-, h2⟩ := h
                  refine ⟨fun i hh => ?_, fun i hi => ?_⟩
                  · rw [← h2] at hh
                    exact m i hh
                  · rw [← h2]
                    exact f i hi
      · -- childNodesLoop
        cases children with
        | nil =>
            refine ⟨fun e he => ?_, fun out st' h => ?_⟩
            · simp [childNodesLoop] at he
            · simp [childNodesLoop] at h
              obtain ⟨-, h2⟩ := h
              refine ⟨fun i hh => ?_, fun i hi => ?_⟩
              · rw [← h2] at hh
                exact hh
              · rw [← h2]
        | cons c cs =>
            have hsplit : ∀ i : Nat, i ∉ idsOfL (c :: cs) →
                i ∉ idsOfN c ∧ i ∉ idsOfL cs := by
              intro i hi
              constructor <;> intro hc <;> exact hi (by simp [idsOfL, hc])
            refine ⟨fun e he => ?_, fun out st' h => ?_⟩
            · simp only [childNodesLoop] at he
              split at he
              · next e2 heq =>
                  simp at he
                  exact he ▸ (ihN _ _ _ _ _).1 e2 heq
              · next out1 st2 heq =>
                  split at he
                  · next e2 heq2 =>
                      simp at he
                      exact he ▸ (ihL _ _ _ _).1 e2 heq2
                  · next l st3 heq2 => simp at he
            · simp only [childNodesLoop] at h
              split at h
              · next e2 heq => simp at h
              · next out1 st2 heq =>
                  split at h
                  · next e2 heq2 => simp at h
                  · next l st3 heq2 =>
                      simp at h
                      obtain ⟨-, h2⟩ := h
                      obtain ⟨m1, f1⟩ := (ihN _ _ _ _ _).2 out1 st2 heq
                      obtain ⟨m2, f2⟩ := (ihL _ _ _ _).2 l st3 heq2
                      refine ⟨fun i hh => ?_, fun i hi => ?_⟩
                      · rw [← h2] at hh
                        exact m1 i (m2 i hh)
                      · rw [← h2]
                        obtain ⟨hi1, hi2⟩ := hsplit i hi
                        exact (f2 i hi2).trans (f1 i hi1)

end SanitizeDom

namespace SanitizeDom

/-- One-step unfolding of sanitizeNode when no skip flag is set and no
filter is configured: the branch cascade remove, flatten, allow, default
flatten over the table with skip_filters consumed. -/
theorem sanitizeNode_noFilters_unfold (opts : Opts) (hfil : opts.filters_by_tag = [])
    (parents : List DomNode) (hp : Bool) (node : DomNode) (idx : Nat) (st : SideTable)
    (hskip : st.skipFlag node.id = false) (g : Nat) :
    sanitizeNode opts (g + 2) parents hp node idx st =
      (if node.isText then
        .ok (.kept node, st.deleteSkipFilters node.id)
      else if matchesAny opts.remove_tags_direct
          ((parents.head?.map DomNode.nodeName).getD "") node.tagnameFor
          || (parents.map DomNode.nodeName).any
            (fun nm => matchesAny opts.remove_tags_deep nm node.tagnameFor) then
        .ok (.detached [], st.deleteSkipFilters node.id)
      else if matchesAny opts.flatten_tags_direct
          ((parents.head?.map DomNode.nodeName).getD "") node.tagnameFor
          || (parents.map DomNode.nodeName).any
            (fun nm => matchesAny opts.flatten_tags_deep nm node.tagnameFor) then
        childNodesToSanitizedSiblings opts (g + 1) parents hp node
          (st.deleteSkipFilters node.id)
      else if matchesAny opts.allow_tags_direct
          ((parents.head?.map DomNode.nodeName).getD "") node.tagnameFor
          || (parents.map DomNode.nodeName).any
            (fun nm => matchesAny opts.allow_tags_deep nm node.tagnameFor) then
        (match sanitizeChildNodes opts (g + 1)
            (allowN2 opts (st.deleteSkipFilters node.id) node :: parents)
            (allowN2 opts (st.deleteSkipFilters node.id) node).children
            (st.deleteSkipFilters node.id) with
         | .error e => .error e
         | .ok (cs, st3) =>
            .ok (.kept ((allowN2 opts (st.deleteSkipFilters node.id)
              node).setChildren cs), st3))
      else
        childNodesToSanitizedSiblings opts (g + 1) parents hp node
          (st.deleteSkipFilters node.id)) := by
  rw [show g + 2 = (g + 1) + 1 from rfl]
  simp only [sanitizeNode, hskip, hfil]
  rw [show getValuesForTagname ([] : List (Regex × List Filter)) node.tagnameFor =
    [] from rfl]
  rw [runFiltersOnNode_nil]
  simp only [Bool.false_eq_true, if_false]
  rfl

/-- C10: the filter pipeline entry unconditionally reads and deletes the
node's skip_filters flag even when no filter matches the node's tag (the
run with the empty filter list returns the node not removed over the table
with the flag deleted), that deletion leaves the entry not defining
skip_filters, and consequently after any no-filter visit that reaches the
pipeline the node's entry no longer defines skip_filters. -/
theorem claim_C10_skip_filters_consumed_at_entry :
    (∀ (opts : Opts) (fuel : Nat) (parents : List DomNode) (node : DomNode)
        (idx : Nat) (st : SideTable),
      runFiltersOnNode opts (fuel + 1) parents node [] idx st =
        .ok (.notRemoved node, st.deleteSkipFilters node.id)) ∧
    (∀ (st : SideTable) (i : Nat),
      (st.deleteSkipFilters i).definesSkipFilters i = false) ∧
    (∀ (opts : Opts) (fuel : Nat) (parents : List DomNode) (hp : Bool)
        (node : DomNode) (idx : Nat) (st : SideTable) (out : Outcome) (st' : SideTable),
      opts.filters_by_tag = [] → st.skipFlag node.id = false →
      sanitizeNode opts fuel parents hp node idx st = .ok (out, st') →
      st'.definesSkipFilters node.id = false) := by
  refine ⟨runFiltersOnNode_nil, SideTable.definesSkipFilters_deleteSkipFilters,
    fun opts fuel parents hp node idx st out st' hfil hskip h => ?_⟩
  match fuel with
  | 0 => simp [sanitizeNode] at h
  | 1 =>
      rw [show (1 : Nat) = 0 + 1 from rfl] at h
      simp [sanitizeNode, hskip, hfil, getValuesForTagname, runFiltersOnNode] at h
  | g + 2 =>
      rw [sanitizeNode_noFilters_unfold opts hfil parents hp node idx st hskip g] at h
      have hD : (st.deleteSkipFilters node.id).definesSkipFilters node.id = false :=
        SideTable.definesSkipFilters_deleteSkipFilters st node.id
      have contra : ∀ st2 : SideTable,
          (∀ i, st2.definesSkipFilters i = true →
            (st.deleteSkipFilters node.id).definesSkipFilters i = true) →
          st2.definesSkipFilters node.id = false := by
        intro st2 m
        cases hdef : st2.definesSkipFilters node.id
        · rfl
        · rw [m node.id hdef] at hD
          exact hD
      split at h
      · simp at h
        rw [← h.2]
        exact hD
      · split at h
        · simp at h
          rw [← h.2]
          exact hD
        · split at h
          · obtain ⟨m, -⟩ :=
              ((enginePurity opts hfil (g + 1)).2.1 parents hp node
                (st.deleteSkipFilters node.id)).2 out st' h
            exact contra st' m
          · split at h
            · split at h
              · simp at h
              · next cs3 st3 heq =>
                  simp at h
                  obtain ⟨-, h2⟩ := h
                  obtain ⟨m, -⟩ :=
                    ((enginePurity opts hfil (g + 1)).2.2.1 _ _ _).2 cs3 st3 heq
                  rw [← h2]
                  exact contra st3 m
            · obtain ⟨m, -⟩ :=
                ((enginePurity opts hfil (g + 1)).2.1 parents hp node
                  (st.deleteSkipFilters node.id)).2 out st' h
              exact contra st' m

/-- Witness for C10 at a concrete input: a pre-set skip_filters flag on a
B element with no filters configured is gone from the side table after the
pipeline entry, and after a whole visit. -/
theorem claim_C10_skip_filters_consumed_at_entry_witness :
    runFiltersOnNode {} 1 [] (.element 4 "B" [] [] [])
      [] 0 [(4, { skip_filters := some true })] =
      .ok (.notRemoved (.element 4 "B" [] [] []), [(4, {})]) ∧
    SideTable.definesSkipFilters [(4, { skip_filters := some true })] 4 = true ∧
    SideTable.definesSkipFilters (SideTable.deleteSkipFilters
      [(4, { skip_filters := some true })] 4) 4 = false ∧
    SideTable.definesSkipFilters [(4, {})] 4 = false := by
  have h := claim_C10_skip_filters_consumed_at_entry
  refine ⟨(h.1 {} 0 [] (.element 4 "B" [] [] []) 0
    [(4, { skip_filters := some true })]).trans (by decide), by decide, ?_, by decide⟩
  have h3 := h.2.2 {} 3 [] true (.element 4 "B" [] [] []) 0
    [(4, { skip_filters := some true })] (.detached [])
    (SideTable.deleteSkipFilters [(4, { skip_filters := some true })] 4) rfl rfl (by decide)
  exact h3

end SanitizeDom

namespace SanitizeDom

/-- With no filters and no sibling joining configured, the engine
terminates: fuel at least twice the subtree size plus a constant is
enough for every run to return ok. -/
theorem engineProgress (opts : Opts) (hfil : opts.filters_by_tag = [])
    (hjoin : opts.join_siblings = []) : ∀ fuel : Nat,
    (∀ parents hp node idx st, 2 * sizeN node + 2 ≤ fuel →
      ∃ out st', sanitizeNode opts fuel parents hp node idx st = .ok (out, st'))
  ∧ (∀ parents hp node st, 2 * sizeN node + 1 ≤ fuel →
      ∃ out st', childNodesToSanitizedSiblings opts fuel parents hp node st =
        .ok (out, st'))
  ∧ (∀ parents children st, 2 * sizeL children + 2 ≤ fuel →
      ∃ out st', sanitizeChildNodes opts fuel parents children st = .ok (out, st'))
  ∧ (∀ parents children idx st, 2 * sizeL children + 1 ≤ fuel →
      ∃ out st', childNodesLoop opts fuel parents children idx st = .ok (out, st')) := by
  intro fuel
  induction fuel with
  | zero =>
      exact ⟨fun _ _ _ _ _ hb => absurd hb (by omega),
        fun _ _ _ _ hb => absurd hb (by omega),
        fun _ _ _ hb => absurd hb (by omega),
        fun parents children idx st hb => by
          cases children with
          | nil => exact ⟨[], st, rfl⟩
          | cons c cs => exact absurd hb (by simp only [sizeL]; omega)⟩
  | succ fuel ih =>
      obtain ⟨ihN, ihC, ihS, ihL⟩ := ih
      refine ⟨fun parents hp node idx st hb => ?_,
        fun parents hp node st hb => ?_,
        fun parents children st hb => ?_,
        fun parents children idx st hb => ?_⟩
      · -- sanitizeNode
        by_cases hskip : st.skipFlag node.id = true
        · exact ⟨.kept node, st.deleteSkip node.id, by simp [sanitizeNode, hskip]⟩
        · rw [Bool.not_eq_true] at hskip
          match fuel, hb with
          | g + 1, hb =>
              rw [sanitizeNode_noFilters_unfold opts hfil parents hp node idx st hskip g]
              split
              · exact ⟨_, _, rfl⟩
              · split
                · exact ⟨_, _, rfl⟩
                · split
                  · exact ihC parents hp node (st.deleteSkipFilters node.id)
                      (by omega)
                  · have hchild : 2 * sizeL node.children + 2 ≤ g + 1 := by
                      cases node with
                      | text i s =>
                          simp [DomNode.children, sizeL]
                          simp [sizeN] at hb
                          omega
                      | element i t a k cs =>
                          simp [DomNode.children]
                          simp [sizeN] at hb
                          omega
                    split
                    · have := ihS (allowN2 opts (st.deleteSkipFilters node.id) node ::
                        parents) (allowN2 opts (st.deleteSkipFilters node.id) node).children
                        (st.deleteSkipFilters node.id)
                        (by rw [allowN2_children]; exact hchild)
                      obtain ⟨out1, st2, hrun⟩ := this
                      rw [hrun]
                      exact ⟨_, _, rfl⟩
                    · exact ihC parents hp node (st.deleteSkipFilters node.id)
                        (by omega)
      · -- childNodesToSanitizedSiblings
        cases hp with
        | false => exact ⟨.kept node, st, by simp [childNodesToSanitizedSiblings]⟩
        | true =>
            have hchild : 2 * sizeL node.children + 2 ≤ fuel := by
              cases node with
              | text i s =>
                  simp [DomNode.children, sizeL]
                  simp [sizeN] at hb
                  omega
              | element i t a k cs =>
                  simp [DomNode.children]
                  simp [sizeN] at hb
                  omega
            obtain ⟨out1, st2, hrun⟩ := ihS parents node.children st hchild
            refine ⟨.detached out1, st2, ?_⟩
            simp only [childNodesToSanitizedSiblings, Bool.not_true, Bool.false_eq_true,
              if_false, hrun]
      · -- sanitizeChildNodes
        obtain ⟨out1, st2, hrun⟩ := ihL parents children 0 st (by omega)
        refine ⟨out1, st2, ?_⟩
        simp only [sanitizeChildNodes, hrun, hjoin]
        simp
      · -- childNodesLoop
        cases children with
        | nil => exact ⟨[], st, rfl⟩
        | cons c cs =>
            obtain ⟨out1, st2, hrun1⟩ := ihN parents true c idx st
              (by simp only [sizeL] at hb; omega)
            obtain ⟨l, st3, hrun2⟩ := ihL parents cs (idx + 1) st2
              (by simp only [sizeL] at hb; omega)
            cases out1 with
            | kept n2 =>
                refine ⟨(if opts.remove_empty && !n2.isText
                    && !(opts.allowed_empty_tags.contains n2.nodeName)
                    && n2.children.isEmpty then ([] : List DomNode) else [n2]) ++ l,
                  st3, ?_⟩
                simp only [childNodesLoop, hrun1, hrun2]
            | detached l1 =>
                refine ⟨l1 ++ l, st3, ?_⟩
                simp only [childNodesLoop, hrun1, hrun2]

end SanitizeDom

namespace SanitizeDom

theorem SideTable.definesSkipFilters_false_of_mono {st st2 : SideTable} {i : Nat}
    (m : st2.definesSkipFilters i = true → st.definesSkipFilters i = true)
    (h : st.definesSkipFilters i = false) : st2.definesSkipFilters i = false := by
  cases hdef : st2.definesSkipFilters i
  · rfl
  · rw [m hdef] at h
    exact h

theorem SideTable.definesSkipFilters_congr {st st2 : SideTable} {i : Nat}
    (h : st2.lookup i = st.lookup i) :
    st2.definesSkipFilters i = st.definesSkipFilters i := by
  unfold SideTable.definesSkipFilters
  rw [h]

/-- When some replacement in the list has the original's tag name and a
side-table entry not defining skip_filters, the replacement scan fails
with the infinite loop guard error naming the filter (given fuel for the
sanitization of the replacements before it). -/
theorem processReplacements_guard (opts : Opts) (hfil : opts.filters_by_tag = [])
    (hjoin : opts.join_siblings = []) (origName filterName : String)
    (parents : List DomNode) :
    ∀ (rs : List DomNode) (fuel idx : Nat) (st : SideTable),
      (∃ r ∈ rs, r.nodeName = origName ∧ st.definesSkipFilters r.id = false) →
      2 * sizeL rs + 1 ≤ fuel →
      processReplacements opts fuel parents origName filterName rs idx st =
        .error (.infiniteLoop filterName) := by
  intro rs
  induction rs with
  | nil =>
      rintro fuel idx st ⟨r, hr, -⟩ -
      exact absurd hr (List.not_mem_nil r)
  | cons r rest ih =>
      rintro fuel idx st ⟨r0, hr0, hname0, hdef0⟩ hb
      match fuel, hb with
      | f + 1, hb =>
          by_cases hguard : (r.nodeName == origName && !(st.definesSkipFilters r.id)) = true
          · simp only [processReplacements, hguard, if_true]
          · have hmem : r0 ∈ rest := by
              rcases List.mem_cons.mp hr0 with heq | hmem
              · exfalso
                apply hguard
                rw [heq] at hname0 hdef0
                simp [hname0, hdef0]
              · exact hmem
            obtain ⟨out1, st2, hrun⟩ :=
              (engineProgress opts hfil hjoin f).1 parents true r idx st
                (by simp only [sizeL] at hb; omega)
            obtain ⟨m, -⟩ := ((enginePurity opts hfil f).1 parents true r idx st).2
              out1 st2 hrun
            have hdef2 : st2.definesSkipFilters r0.id = false :=
              SideTable.definesSkipFilters_false_of_mono (m r0.id) hdef0
            have hrec := ih f (idx + 1) st2 ⟨r0, hmem, hname0, hdef2⟩
              (by simp only [sizeL] at hb; omega)
            cases out1 <;>
              simp only [processReplacements, hguard, Bool.false_eq_true, if_false,
                hrun, hrec]

/-- When every replacement with the original's tag name has skip_filters
explicitly defined and the replacement subtrees do not alias each other's
ids, the replacement scan never raises the infinite loop guard. -/
theorem processReplacements_no_guard (opts : Opts) (hfil : opts.filters_by_tag = [])
    (origName filterName : String) (parents : List DomNode) :
    ∀ (rs : List DomNode) (fuel idx : Nat) (st : SideTable),
      (∀ r ∈ rs, r.nodeName = origName → st.definesSkipFilters r.id = true) →
      rs.Pairwise (fun a b => b.id ∉ idsOfN a) →
      ∀ nm, processReplacements opts fuel parents origName filterName rs idx st ≠
        .error (.infiniteLoop nm) := by
  intro rs
  induction rs with
  | nil =>
      intro fuel idx st hdef hpw nm h
      cases fuel <;> simp [processReplacements] at h
  | cons r rest ih =>
      intro fuel idx st hdef hpw nm h
      match fuel with
      | 0 => simp [processReplacements] at h
      | f + 1 =>
          have hguard : (r.nodeName == origName && !(st.definesSkipFilters r.id)) = false := by
            by_cases hname : r.nodeName = origName
            · simp [hname, hdef r (List.mem_cons_self r rest) hname]
            · simp [hname]
          simp only [processReplacements, hguard, Bool.false_eq_true, if_false] at h
          split at h
          · next e heq =>
              have hfuel := ((enginePurity opts hfil f).1 parents true r idx st).1 e heq
              simp at h
              simp [hfuel] at h
          · next out1 st2 heq =>
              obtain ⟨-, f1⟩ := ((enginePurity opts hfil f).1 parents true r idx st).2
                out1 st2 heq
              have hdef2 : ∀ r2 ∈ rest, r2.nodeName = origName →
                  st2.definesSkipFilters r2.id = true := by
                intro r2 hr2 hname2
                have hni : r2.id ∉ idsOfN r :=
                  (List.pairwise_cons.mp hpw).1 r2 hr2
                rw [SideTable.definesSkipFilters_congr (f1 r2.id hni)]
                exact hdef r2 (List.mem_cons_of_mem r hr2) hname2
              have hne := ih f (idx + 1) st2 hdef2 (List.pairwise_cons.mp hpw).2 nm
              split at h
              · next e heq2 =>
                  simp at h
                  exact hne (by rw [heq2, h])
              · next l st3 heq2 =>
                  split at h <;> simp at h

end SanitizeDom

namespace SanitizeDom

/-- C2: for a filter invocation whose result is an array of nodes distinct
from the input (or a single such node, which the pipeline treats exactly
like the one-element array), if some replacement with the original's tag
name has a side-table entry that does not explicitly define skip_filters,
the pipeline raises the infinite-loop-guard error identifying the filter,
aborting the run; and no such error is raised when skip_filters is
explicitly defined on every same-tag replacement (with non-aliasing
replacement subtrees and no other filters configured). -/
theorem claim_C2_infinite_loop_guard (opts : Opts) (fuel : Nat)
    (parents : List DomNode) (node : DomNode) (idx : Nat) (st st1 : SideTable)
    (f : Filter) (rs : List DomNode)
    (hfil : opts.filters_by_tag = []) (hjoin : opts.join_siblings = [])
    (hsf : st.skipFiltersTruthy node.id = false)
    (hres : f.fn node
      { parents := parents, parentNodenames := parents.map DomNode.nodeName,
        siblingIndex := idx } (st.deleteSkipFilters node.id) = (.arr rs, st1)) :
    ((∃ r ∈ rs, r.nodeName = node.nodeName ∧ st1.definesSkipFilters r.id = false) →
      2 * sizeL rs + 1 ≤ fuel →
      runFiltersOnNode opts (fuel + 2) parents node [f] idx st =
        .error (.infiniteLoop f.name)) ∧
    ((∀ r ∈ rs, r.nodeName = node.nodeName → st1.definesSkipFilters r.id = true) →
      rs.Pairwise (fun a b => b.id ∉ idsOfN a) →
      ∀ nm, runFiltersOnNode opts (fuel + 2) parents node [f] idx st ≠
        .error (.infiniteLoop nm)) ∧
    (∀ (fS fA : Filter) (r : DomNode) (stX : SideTable) (g : Nat),
      fS.fn node
        { parents := parents, parentNodenames := parents.map DomNode.nodeName,
          siblingIndex := idx } (st.deleteSkipFilters node.id) = (.single r, stX) →
      fA.fn node
        { parents := parents, parentNodenames := parents.map DomNode.nodeName,
          siblingIndex := idx } (st.deleteSkipFilters node.id) = (.arr [r], stX) →
      fS.name = fA.name →
      runFiltersOnNode opts (g + 2) parents node [fS] idx st =
        runFiltersOnNode opts (g + 2) parents node [fA] idx st) := by
  refine ⟨fun hex hfuel => ?_, fun hdefs hpw nm h => ?_, fun fS fA r stX g hS hA hname => ?_⟩
  · simp only [runFiltersOnNode, hsf, Bool.false_eq_true, if_false, filtersLoop, hres,
      processReplacements_guard opts hfil hjoin node.nodeName f.name parents rs fuel 0
        st1 hex hfuel]
  · simp only [runFiltersOnNode, hsf, Bool.false_eq_true, if_false, filtersLoop,
      hres] at h
    split at h
    · next e heq =>
        simp at h
        exact processReplacements_no_guard opts hfil node.nodeName f.name parents rs
          fuel 0 st1 hdefs hpw nm (by rw [heq, h])
    · next l st3 heq => simp at h
  · simp only [runFiltersOnNode, hsf, Bool.false_eq_true, if_false, filtersLoop, hS, hA,
      hname]

/-- Witness for C2 at concrete inputs: a filter on a B element returning a
fresh same-tag B without skip_filters trips the guard naming the filter; a
filter whose same-tag replacement carries an explicit skip_filters flag
does not; the single-node and one-element-array results run identically. -/
theorem claim_C2_infinite_loop_guard_witness :
    runFiltersOnNode {} 7 [] (.element 1 "B" [] [] [])
      [{ name := "badFilter", fn := fun _ _ st => (.arr [.element 9 "B" [] [] []], st) }]
      0 [] = .error (.infiniteLoop "badFilter") ∧
    (∀ nm, runFiltersOnNode {} 7 [] (.element 1 "B" [] [] [])
      [{ name := "goodFilter",
         fn := fun _ _ _ => (.arr [.element 9 "B" [] [] []],
           [(9, { skip_filters := some true })]) }]
      0 [] ≠ .error (.infiniteLoop nm)) ∧
    runFiltersOnNode {} 7 [] (.element 1 "B" [] [] [])
      [{ name := "sgl", fn := fun _ _ st => (.single (.element 9 "I" [] [] []), st) }]
      0 [] =
    runFiltersOnNode {} 7 [] (.element 1 "B" [] [] [])
      [{ name := "sgl", fn := fun _ _ st => (.arr [.element 9 "I" [] [] []], st) }]
      0 [] := by
  have h1 := claim_C2_infinite_loop_guard {} 5 [] (.element 1 "B" [] [] []) 0 [] []
    { name := "badFilter", fn := fun _ _ st => (.arr [.element 9 "B" [] [] []], st) }
    [.element 9 "B" [] [] []] rfl rfl rfl rfl
  have h2 := claim_C2_infinite_loop_guard {} 5 [] (.element 1 "B" [] [] []) 0 []
    [(9, { skip_filters := some true })]
    { name := "goodFilter",
      fn := fun _ _ _ => (.arr [.element 9 "B" [] [] []],
        [(9, { skip_filters := some true })]) }
    [.element 9 "B" [] [] []] rfl rfl rfl rfl
  refine ⟨h1.1 ⟨.element 9 "B" [] [] [], by decide, rfl, rfl⟩ (by decide),
    h2.2.1 (fun r hr hname => ?_) (by simp) , ?_⟩
  · rcases List.mem_singleton.mp hr with rfl
    decide
  · exact h1.2.2
      { name := "sgl", fn := fun _ _ st => (.single (.element 9 "I" [] [] []), st) }
      { name := "sgl", fn := fun _ _ st => (.arr [.element 9 "I" [] [] []], st) }
      (.element 9 "I" [] [] []) [] 5 rfl rfl rfl

end SanitizeDom

namespace SanitizeDom

mutual
theorem texts_all_textN : ∀ n : DomNode, ∀ m ∈ textsOfN n, m.isText = true
  | .text i s => by simp [textsOfN, DomNode.isText]
  | .element _ _ _ _ cs => by
      simpa [textsOfN] using texts_all_textL cs

theorem texts_all_textL : ∀ l : List DomNode, ∀ m ∈ textsOfL l, m.isText = true
  | [] => by simp [textsOfL]
  | c :: cs => by
      intro m hm
      rcases List.mem_append.mp (by simpa [textsOfL] using hm) with h | h
      · exact texts_all_textN c m h
      · exact texts_all_textL cs m h
end

theorem textsOfL_of_all_text (l : List DomNode) (h : ∀ m ∈ l, m.isText = true) :
    textsOfL l = l := by
  induction l with
  | nil => rfl
  | cons c cs ih =>
      have hc := h c (List.mem_cons_self c cs)
      cases c with
      | element _ _ _ _ _ => simp [DomNode.isText] at hc
      | text i s =>
          simp only [textsOfL, textsOfN]
          rw [ih (fun m hm => h m (List.mem_cons_of_mem _ hm))]
          rfl

theorem DomNode.setChildren_setChildren (n : DomNode) (l m : List DomNode) :
    (n.setChildren l).setChildren m = n.setChildren m := by
  cases n <;> rfl

theorem matchesAny_nil (a b : String) : matchesAny [] a b = false := rfl

/-- With the default (empty) option bag and an empty side table, the
engine flattens everything: a visited element resolves to its text
descendants, a text node is kept, and the table stays empty. -/
theorem emptyRun : ∀ fuel : Nat,
    (∀ parents node idx, 2 * sizeN node + 2 ≤ fuel →
      sanitizeNode {} fuel parents true node idx [] =
        .ok ((if node.isText then Outcome.kept node
          else Outcome.detached (textsOfN node)), []))
  ∧ (∀ parents node, 2 * sizeN node + 1 ≤ fuel →
      childNodesToSanitizedSiblings {} fuel parents true node [] =
        .ok (.detached (textsOfL node.children), []))
  ∧ (∀ parents children, 2 * sizeL children + 2 ≤ fuel →
      sanitizeChildNodes {} fuel parents children [] = .ok (textsOfL children, []))
  ∧ (∀ parents children idx, 2 * sizeL children + 1 ≤ fuel →
      childNodesLoop {} fuel parents children idx [] = .ok (textsOfL children, [])) := by
  intro fuel
  induction fuel with
  | zero =>
      exact ⟨fun _ _ _ hb => absurd hb (by omega),
        fun _ _ hb => absurd hb (by omega),
        fun _ _ hb => absurd hb (by omega),
        fun parents children idx hb => by
          cases children with
          | nil => rfl
          | cons c cs => exact absurd hb (by simp only [sizeL]; omega)⟩
  | succ fuel ih =>
      obtain ⟨ihN, ihC, ihS, ihL⟩ := ih
      refine ⟨fun parents node idx hb => ?_,
        fun parents node hb => ?_,
        fun parents children hb => ?_,
        fun parents children idx hb => ?_⟩
      · -- sanitizeNode
        match fuel, hb with
        | g + 1, hb =>
            rw [sanitizeNode_noFilters_unfold {} rfl parents true node idx [] rfl g]
            have hany : ∀ (s1 s2 : ParentChildSpec) (s : String), s1 = [] → s2 = [] →
                (matchesAny s1 ((parents.head?.map DomNode.nodeName).getD "") s
                  || (parents.map DomNode.nodeName).any
                    (fun nm => matchesAny s2 nm s)) = false := by
              intro s1 s2 s h1 h2
              subst h1
              subst h2
              simp [matchesAny_nil]
            cases node with
            | text i s => rfl
            | element i t a k cs =>
                have hc1 := hany (({} : Opts).remove_tags_direct)
                  (({} : Opts).remove_tags_deep)
                  (DomNode.element i t a k cs).tagnameFor rfl rfl
                have hc2 := hany (({} : Opts).flatten_tags_direct)
                  (({} : Opts).flatten_tags_deep)
                  (DomNode.element i t a k cs).tagnameFor rfl rfl
                have hc3 := hany (({} : Opts).allow_tags_direct)
                  (({} : Opts).allow_tags_deep)
                  (DomNode.element i t a k cs).tagnameFor rfl rfl
                simp only [DomNode.isText, Bool.false_eq_true, if_false, hc1, hc2, hc3]
                rw [show SideTable.deleteSkipFilters []
                  (DomNode.element i t a k cs).id = [] from rfl]
                rw [ihC parents (DomNode.element i t a k cs) (by
                  simp only [sizeN] at hb ⊢
                  omega)]
                rfl
      · -- childNodesToSanitizedSiblings
        have hchild : 2 * sizeL node.children + 2 ≤ fuel := by
          cases node with
          | text i s =>
              simp only [DomNode.children, sizeL]
              simp only [sizeN] at hb
              omega
          | element i t a k cs =>
              simp only [DomNode.children]
              simp only [sizeN] at hb
              omega
        simp only [childNodesToSanitizedSiblings, Bool.not_true, Bool.false_eq_true,
          if_false, ihS parents node.children hchild]
      · -- sanitizeChildNodes
        simp only [sanitizeChildNodes, ihL parents children 0 (by omega)]
        rfl
      · -- childNodesLoop
        cases children with
        | nil => rfl
        | cons c cs =>
            have hN := ihN parents c idx (by simp only [sizeL] at hb; omega)
            have hL := ihL parents cs (idx + 1) (by simp only [sizeL] at hb; omega)
            cases c with
            | text i s =>
                simp only [childNodesLoop, hN, hL]
                rfl
            | element i t a k cs2 =>
                simp only [childNodesLoop, hN, hL]
                rfl

end SanitizeDom

namespace SanitizeDom

/-- C5: processing any tree with the empty option set (all defaults)
flattens every element so that only the text content remains, in order,
and a second pass with the same options over the result changes nothing:
the first childrenOnly run replaces the context's children by their text
descendants, every remaining node is a text node, and the run on the
result reproduces it exactly. -/
theorem claim_C5_empty_options_flatten_idempotent (ctx : DomNode) (fuel fuel2 : Nat)
    (hb : 2 * sizeL ctx.children + 2 ≤ fuel)
    (hb2 : 2 * sizeL (textsOfL ctx.children) + 2 ≤ fuel2) :
    sanitizeDom {} fuel ctx false true [] =
      .ok (.kept (ctx.setChildren (textsOfL ctx.children)), []) ∧
    (∀ m ∈ textsOfL ctx.children, m.isText = true) ∧
    sanitizeDom {} fuel2 (ctx.setChildren (textsOfL ctx.children)) false true [] =
      .ok (.kept (ctx.setChildren (textsOfL ctx.children)), []) := by
  have h1 : sanitizeChildNodes {} fuel [ctx] ctx.children [] =
      .ok (textsOfL ctx.children, []) :=
    (emptyRun fuel).2.2.1 [ctx] ctx.children hb
  refine ⟨?_, texts_all_textL ctx.children, ?_⟩
  · simp only [sanitizeDom, if_true, h1]
  · cases ctx with
    | text i s =>
        have h2 : sanitizeChildNodes {} fuel2 [DomNode.text i s] [] [] = .ok ([], []) :=
          (emptyRun fuel2).2.2.1 [DomNode.text i s] [] (by
            simp only [DomNode.children, textsOfL, sizeL] at hb2
            simpa [sizeL] using hb2)
        simp only [DomNode.children, textsOfL, DomNode.setChildren]
        simp only [sanitizeDom, if_true]
        rw [show (DomNode.text i s).children = [] from rfl, h2]
        rfl
    | element i t a k cs =>
        have hRtext : ∀ m ∈ textsOfL cs, m.isText = true := texts_all_textL cs
        have hfix : textsOfL (textsOfL cs) = textsOfL cs :=
          textsOfL_of_all_text (textsOfL cs) hRtext
        simp only [DomNode.children] at hb2
        have h2 : sanitizeChildNodes {} fuel2 [DomNode.element i t a k (textsOfL cs)]
            (textsOfL cs) [] = .ok (textsOfL cs, []) := by
          have h3 := (emptyRun fuel2).2.2.1 [DomNode.element i t a k (textsOfL cs)]
            (textsOfL cs) hb2
          rwa [hfix] at h3
        simp only [DomNode.setChildren, DomNode.children]
        simp only [sanitizeDom, if_true]
        rw [show (DomNode.element i t a k (textsOfL cs)).children = textsOfL cs from rfl,
          h2]
        rfl

/-- Witness for C5 at the spec's example: a BODY containing a DIV, P, text
and B collapses to the two text nodes, all results are text, and a second
pass reproduces the result. -/
theorem claim_C5_empty_options_flatten_idempotent_witness :
    sanitizeDom {} 30
      (.element 0 "BODY" [] []
        [.element 1 "DIV" [] [] [.element 2 "P" [] []
          [.text 3 "abc ", .element 4 "B" [] [] [.text 5 "def"]]]])
      false true [] =
      .ok (.kept (.element 0 "BODY" [] [] [.text 3 "abc ", .text 5 "def"]), []) ∧
    sanitizeDom {} 30
      (.element 0 "BODY" [] [] [.text 3 "abc ", .text 5 "def"]) false true [] =
      .ok (.kept (.element 0 "BODY" [] [] [.text 3 "abc ", .text 5 "def"]), []) := by
  have h := claim_C5_empty_options_flatten_idempotent
    (.element 0 "BODY" [] []
      [.element 1 "DIV" [] [] [.element 2 "P" [] []
        [.text 3 "abc ", .element 4 "B" [] [] [.text 5 "def"]]]])
    30 30 (by decide) (by decide)
  exact ⟨h.1.trans (by decide), (h.2.2.trans (by decide) : _)⟩

end SanitizeDom

namespace SanitizeDom

theorem joinStep_none_adj (st : Store) (tags : List String) (n n1 : Nat)
    (rest2 : List Nat) (h : joinStep st tags n (n1 :: rest2) = none)
    (hc : tags.contains (st.nodeName n) = true) :
    st.nodeName n ≠ st.nodeName n1 ∧
    (∀ n2 rest3, rest2 = n2 :: rest3 → st.nodeName n = st.nodeName n2 →
      ¬(st.isTextNode n1 = true ∧ wsOnly (st.textOf n1) = true)) := by
  cases rest2 with
  | nil =>
      refine ⟨?_, by rintro n2 rest3 h2; exact absurd h2 (by simp)⟩
      simp only [joinStep, hc, Bool.not_true, Bool.false_eq_true, if_false] at h
      by_cases hname : (st.nodeName n == st.nodeName n1) = true
      · rw [if_pos hname] at h
        exact absurd h (by simp)
      · exact fun hn => hname (by simp [hn])
  | cons n2a rest3a =>
      simp only [joinStep, hc, Bool.not_true, Bool.false_eq_true, if_false] at h
      by_cases hname : (st.nodeName n == st.nodeName n1) = true
      · rw [if_pos hname] at h
        exact absurd h (by simp)
      · rw [if_neg hname] at h
        refine ⟨fun hn => hname (by simp [hn]), ?_⟩
        rintro n2 rest3 heq hname2 ⟨htext, hws⟩
        obtain ⟨rfl, rfl⟩ : n2a = n2 ∧ rest3a = rest3 := by simpa using heq
        rw [if_pos (by simp [hname2, htext, hws])] at h
        exact absurd h (by simp)

theorem joinLoop_result (recur : Store → Option Store) (tags : List String)
    (parent : Nat)
    (hrec : ∀ s s', recur s = some s' → NoAdj s' parent tags) :
    ∀ (sibs : List Nat) (st st' : Store),
      joinLoop recur tags sibs st = some st' →
      (st' = st ∧ ∀ pre n rest, sibs = pre ++ n :: rest →
        joinStep st tags n rest = none)
      ∨ NoAdj st' parent tags := by
  intro sibs
  induction sibs with
  | nil =>
      intro st st' h
      simp only [joinLoop, Option.some.injEq] at h
      refine Or.inl ⟨h.symm, fun pre n rest hsplit => ?_⟩
      exact absurd hsplit (by simp)
  | cons n0 rest0 ih =>
      intro st st' h
      simp only [joinLoop] at h
      split at h
      · next hstep =>
          rcases ih st st' h with ⟨rfl, hscan⟩ | hna
          · refine Or.inl ⟨rfl, fun pre n rest hsplit => ?_⟩
            cases pre with
            | nil =>
                obtain ⟨rfl, rfl⟩ : n0 = n ∧ rest0 = rest := by
                  simpa using hsplit
                exact hstep
            | cons x pre2 =>
                obtain ⟨rfl, hsplit2⟩ : n0 = x ∧ rest0 = pre2 ++ n :: rest := by
                  simpa using hsplit
                exact hscan pre2 n rest hsplit2
          · exact Or.inr hna
      · next st2 hstep =>
          split at h
          · exact absurd h (by simp)
          · next st3 hr =>
              have hna3 : NoAdj st3 parent tags := hrec st2 st3 hr
              rcases ih st3 st' h with ⟨rfl, -⟩ | hna
              · exact Or.inr hna3
              · exact Or.inr hna

theorem joinSiblings_noAdj : ∀ (fuel : Nat) (st : Store) (parent : Nat)
    (tags : List String) (st' : Store),
    joinSiblings fuel st parent tags = some st' → NoAdj st' parent tags := by
  intro fuel
  induction fuel with
  | zero => intro st parent tags st' h; exact absurd h (by simp [joinSiblings])
  | succ fuel ih =>
      intro st parent tags st' h
      simp only [joinSiblings] at h
      rcases joinLoop_result (fun s => joinSiblings fuel s parent tags) tags parent
        (fun s s' hs => ih s parent tags s' hs) (st.childrenOf parent) st st' h with
        ⟨rfl, hscan⟩ | hna
      · exact fun pre n rest hsplit => hscan pre n rest hsplit
      · exact hna

end SanitizeDom

namespace SanitizeDom

/-- C4: for every parent and non-empty allowlist, when the Sibling Joiner
returns, the parent's child list is at a fixed point: no allowlisted child
has a next sibling with the same tag name, and no allowlisted child is
separated from a same-tag sibling by only a single whitespace-only text
node; siblings separated by non-whitespace text are not joined (concrete
run below unchanged), and joining moves the absorbed sibling's children
into the surviving node in order (concrete run: a B with children a,b
absorbing a B with child c ends with children a,b,c). -/
theorem claim_C4_sibling_joiner_fixed_point (fuel : Nat) (st : Store) (parent : Nat)
    (tags : List String) (st' : Store) (hne : tags ≠ [])
    (hrun : joinSiblings fuel st parent tags = some st') :
    (∀ i n n1 rest2, (st'.childrenOf parent).drop i = n :: n1 :: rest2 →
      tags.contains (st'.nodeName n) = true →
      st'.nodeName n ≠ st'.nodeName n1 ∧
      (∀ n2 rest3, rest2 = n2 :: rest3 → st'.nodeName n = st'.nodeName n2 →
        ¬(st'.isTextNode n1 = true ∧ wsOnly (st'.textOf n1) = true))) ∧
    joinSiblings 10 (storeOfForest 10 [.element 1 "B" [] [] [.text 2 "a"], .text 7 "x",
      .element 3 "B" [] [] [.text 4 "c"]]) 10 ["B"] =
      some (storeOfForest 10 [.element 1 "B" [] [] [.text 2 "a"], .text 7 "x",
        .element 3 "B" [] [] [.text 4 "c"]]) ∧
    (joinSiblings 10 (storeOfForest 10 [.element 1 "B" [] []
        [.text 2 "a", .text 3 "b"], .element 5 "B" [] [] [.text 6 "c"]]) 10 ["B"]).map
      (fun s => s.childrenOf 1) = some [2, 3, 6] := by
  refine ⟨?_, by decide, by decide⟩
  intro i n n1 rest2 hdrop hc
  have hna := joinSiblings_noAdj fuel st parent tags st' hrun
  have hsplit : st'.childrenOf parent =
      (st'.childrenOf parent).take i ++ n :: (n1 :: rest2) := by
    conv_lhs => rw [← List.take_append_drop i (st'.childrenOf parent)]
    rw [hdrop]
  exact joinStep_none_adj st' tags n n1 rest2
    (hna ((st'.childrenOf parent).take i) n (n1 :: rest2) hsplit) hc

/-- Witness for C4 at the spec's example: three adjacent B siblings fold
into a single B holding the three texts in order, and the resulting child
list admits no further join. -/
theorem claim_C4_sibling_joiner_fixed_point_witness :
    ((["B"] : List String) ≠ []) ∧
    joinSiblings 10 (storeOfForest 10
      [.element 1 "B" [] [] [.text 2 "a"], .element 3 "B" [] [] [.text 4 "b"],
       .element 5 "B" [] [] [.text 6 "c"]]) 10 ["B"] =
      some [(10, { isText := false, name := "#document-fragment", text := "", attrs := [], classes := [], children := [1] }), (1, { isText := false, name := "B", text := "", attrs := [], classes := [], children := [2, 4, 6] }), (2, { isText := true, name := "#text", text := "a", attrs := [], classes := [], children := [] }), (3, { isText := false, name := "B", text := "", attrs := [], classes := [], children := [] }), (4, { isText := true, name := "#text", text := "b", attrs := [], classes := [], children := [] }), (5, { isText := false, name := "B", text := "", attrs := [], classes := [], children := [] }), (6, { isText := true, name := "#text", text := "c", attrs := [], classes := [], children := [] })] ∧
    (∀ i n n1 rest2,
      (Store.childrenOf [(10, { isText := false, name := "#document-fragment", text := "", attrs := [], classes := [], children := [1] }), (1, { isText := false, name := "B", text := "", attrs := [], classes := [], children := [2, 4, 6] }), (2, { isText := true, name := "#text", text := "a", attrs := [], classes := [], children := [] }), (3, { isText := false, name := "B", text := "", attrs := [], classes := [], children := [] }), (4, { isText := true, name := "#text", text := "b", attrs := [], classes := [], children := [] }), (5, { isText := false, name := "B", text := "", attrs := [], classes := [], children := [] }), (6, { isText := true, name := "#text", text := "c", attrs := [], classes := [], children := [] })] 10).drop i = n :: n1 :: rest2 →
      (["B"] : List String).contains (Store.nodeName [(10, { isText := false, name := "#document-fragment", text := "", attrs := [], classes := [], children := [1] }), (1, { isText := false, name := "B", text := "", attrs := [], classes := [], children := [2, 4, 6] }), (2, { isText := true, name := "#text", text := "a", attrs := [], classes := [], children := [] }), (3, { isText := false, name := "B", text := "", attrs := [], classes := [], children := [] }), (4, { isText := true, name := "#text", text := "b", attrs := [], classes := [], children := [] }), (5, { isText := false, name := "B", text := "", attrs := [], classes := [], children := [] }), (6, { isText := true, name := "#text", text := "c", attrs := [], classes := [], children := [] })] n) = true →
      Store.nodeName [(10, { isText := false, name := "#document-fragment", text := "", attrs := [], classes := [], children := [1] }), (1, { isText := false, name := "B", text := "", attrs := [], classes := [], children := [2, 4, 6] }), (2, { isText := true, name := "#text", text := "a", attrs := [], classes := [], children := [] }), (3, { isText := false, name := "B", text := "", attrs := [], classes := [], children := [] }), (4, { isText := true, name := "#text", text := "b", attrs := [], classes := [], children := [] }), (5, { isText := false, name := "B", text := "", attrs := [], classes := [], children := [] }), (6, { isText := true, name := "#text", text := "c", attrs := [], classes := [], children := [] })] n ≠ Store.nodeName [(10, { isText := false, name := "#document-fragment", text := "", attrs := [], classes := [], children := [1] }), (1, { isText := false, name := "B", text := "", attrs := [], classes := [], children := [2, 4, 6] }), (2, { isText := true, name := "#text", text := "a", attrs := [], classes := [], children := [] }), (3, { isText := false, name := "B", text := "", attrs := [], classes := [], children := [] }), (4, { isText := true, name := "#text", text := "b", attrs := [], classes := [], children := [] }), (5, { isText := false, name := "B", text := "", attrs := [], classes := [], children := [] }), (6, { isText := true, name := "#text", text := "c", attrs := [], classes := [], children := [] })] n1 ∧
      (∀ n2 rest3, rest2 = n2 :: rest3 →
        Store.nodeName [(10, { isText := false, name := "#document-fragment", text := "", attrs := [], classes := [], children := [1] }), (1, { isText := false, name := "B", text := "", attrs := [], classes := [], children := [2, 4, 6] }), (2, { isText := true, name := "#text", text := "a", attrs := [], classes := [], children := [] }), (3, { isText := false, name := "B", text := "", attrs := [], classes := [], children := [] }), (4, { isText := true, name := "#text", text := "b", attrs := [], classes := [], children := [] }), (5, { isText := false, name := "B", text := "", attrs := [], classes := [], children := [] }), (6, { isText := true, name := "#text", text := "c", attrs := [], classes := [], children := [] })] n = Store.nodeName [(10, { isText := false, name := "#document-fragment", text := "", attrs := [], classes := [], children := [1] }), (1, { isText := false, name := "B", text := "", attrs := [], classes := [], children := [2, 4, 6] }), (2, { isText := true, name := "#text", text := "a", attrs := [], classes := [], children := [] }), (3, { isText := false, name := "B", text := "", attrs := [], classes := [], children := [] }), (4, { isText := true, name := "#text", text := "b", attrs := [], classes := [], children := [] }), (5, { isText := false, name := "B", text := "", attrs := [], classes := [], children := [] }), (6, { isText := true, name := "#text", text := "c", attrs := [], classes := [], children := [] })] n2 →
        ¬(Store.isTextNode [(10, { isText := false, name := "#document-fragment", text := "", attrs := [], classes := [], children := [1] }), (1, { isText := false, name := "B", text := "", attrs := [], classes := [], children := [2, 4, 6] }), (2, { isText := true, name := "#text", text := "a", attrs := [], classes := [], children := [] }), (3, { isText := false, name := "B", text := "", attrs := [], classes := [], children := [] }), (4, { isText := true, name := "#text", text := "b", attrs := [], classes := [], children := [] }), (5, { isText := false, name := "B", text := "", attrs := [], classes := [], children := [] }), (6, { isText := true, name := "#text", text := "c", attrs := [], classes := [], children := [] })] n1 = true ∧
          wsOnly (Store.textOf [(10, { isText := false, name := "#document-fragment", text := "", attrs := [], classes := [], children := [1] }), (1, { isText := false, name := "B", text := "", attrs := [], classes := [], children := [2, 4, 6] }), (2, { isText := true, name := "#text", text := "a", attrs := [], classes := [], children := [] }), (3, { isText := false, name := "B", text := "", attrs := [], classes := [], children := [] }), (4, { isText := true, name := "#text", text := "b", attrs := [], classes := [], children := [] }), (5, { isText := false, name := "B", text := "", attrs := [], classes := [], children := [] }), (6, { isText := true, name := "#text", text := "c", attrs := [], classes := [], children := [] })] n1) = true))) := by
  refine ⟨by decide, by decide, ?_⟩
  exact (claim_C4_sibling_joiner_fixed_point 10 (storeOfForest 10
      [.element 1 "B" [] [] [.text 2 "a"], .element 3 "B" [] [] [.text 4 "b"],
       .element 5 "B" [] [] [.text 6 "c"]]) 10 ["B"] [(10, { isText := false, name := "#document-fragment", text := "", attrs := [], classes := [], children := [1] }), (1, { isText := false, name := "B", text := "", attrs := [], classes := [], children := [2, 4, 6] }), (2, { isText := true, name := "#text", text := "a", attrs := [], classes := [], children := [] }), (3, { isText := false, name := "B", text := "", attrs := [], classes := [], children := [] }), (4, { isText := true, name := "#text", text := "b", attrs := [], classes := [], children := [] }), (5, { isText := false, name := "B", text := "", attrs := [], classes := [], children := [] }), (6, { isText := true, name := "#text", text := "c", attrs := [], classes := [], children := [] })]
    (by decide) (by decide)).1

end SanitizeDom

namespace SanitizeDom

theorem Regex.deriv_congr (a b : Char) (h : a.toUpper = b.toUpper) :
    ∀ r : Regex, r.deriv a = r.deriv b := by
  intro r
  induction r with
  | emptyset => rfl
  | epsilon => rfl
  | chr c => simp [Regex.deriv, Regex.charEq, h]
  | anyChar => rfl
  | cat r1 r2 ih1 ih2 => simp [Regex.deriv, ih1, ih2]
  | alt r1 r2 ih1 ih2 => simp [Regex.deriv, ih1, ih2]
  | star r ihr => simp [Regex.deriv, ihr]

theorem Regex.matchesChars_congr : ∀ (l1 l2 : List Char),
    l1.map Char.toUpper = l2.map Char.toUpper →
    ∀ r : Regex, Regex.matchesChars r l1 = Regex.matchesChars r l2 := by
  intro l1
  induction l1 with
  | nil =>
      intro l2 h r
      cases l2 with
      | nil => rfl
      | cons b bs => simp at h
  | cons a as ih =>
      intro l2 h r
      cases l2 with
      | nil => simp at h
      | cons b bs =>
          simp only [List.map_cons, List.cons.injEq] at h
          rw [Regex.matchesChars, Regex.matchesChars, Regex.deriv_congr a b h.1 r]
          exact ih bs h.2 (r.deriv b)

/-- Counterexample for C3: not every tag-name comparison the system
performs is case-insensitive.  The Sibling Joiner tests allowlist
membership with exact string comparison (lib/join-siblings.js line 12): on
a parent with two B elements, the allowlist with the lowercase b performs
no join while the uppercase B allowlist joins them, and the underlying
membership test rejects the case-variant outright. -/
theorem claim_C3_counterexample :
    joinSiblings 10 (storeOfForest 10
      [.element 1 "B" [] [] [.text 2 "a"], .element 3 "B" [] [] [.text 4 "b"]])
      10 ["b"] =
      some (storeOfForest 10
        [.element 1 "B" [] [] [.text 2 "a"], .element 3 "B" [] [] [.text 4 "b"]]) ∧
    (joinSiblings 10 (storeOfForest 10
      [.element 1 "B" [] [] [.text 2 "a"], .element 3 "B" [] [] [.text 4 "b"]])
      10 ["B"]).map (fun s => s.childrenOf 10) = some [1] ∧
    (["b"] : List String).contains "B" = false := by
  refine ⟨by decide, by decide, by decide⟩

/-- C3 amended: the compiled regex matchers for all rule specs are
case-insensitive (matching is invariant under case-equivalent inputs) and
whole-string (a literal pattern does not match a longer string containing
it); the Sibling Joiner's allowlist membership test for join_siblings,
however, is an exact, case-sensitive string comparison. -/
theorem claim_C3_amended_matchers_case_insensitive_joiner_case_sensitive :
    (∀ (r : Regex) (l1 l2 : List Char), l1.map Char.toUpper = l2.map Char.toUpper →
      Regex.matchesChars r l1 = Regex.matchesChars r l2) ∧
    Regex.rmatch (Regex.lit "B") "b" = true ∧
    Regex.rmatch (Regex.lit "B") "AB" = false ∧
    Regex.rmatch (Regex.lit "P") "SPAN" = false ∧
    (["b"] : List String).contains "B" = false ∧
    (["B"] : List String).contains "B" = true ∧
    joinSiblings 10 (storeOfForest 10
      [.element 1 "B" [] [] [.text 2 "a"], .element 3 "B" [] [] [.text 4 "b"]])
      10 ["b"] =
      some (storeOfForest 10
        [.element 1 "B" [] [] [.text 2 "a"], .element 3 "B" [] [] [.text 4 "b"]]) := by
  exact ⟨fun r l1 l2 h => Regex.matchesChars_congr l1 l2 h r, by decide, by decide,
    by decide, by decide, by decide, by decide⟩

/-- Witness for the amended C3: case-insensitivity of the matcher applied
at the concrete case-equivalent inputs b and B. -/
theorem claim_C3_amended_witness :
    ((['b'] : List Char).map Char.toUpper = (['B'] : List Char).map Char.toUpper) ∧
    Regex.matchesChars (Regex.lit "B") ['b'] =
      Regex.matchesChars (Regex.lit "B") ['B'] := by
  refine ⟨by decide, ?_⟩
  exact claim_C3_amended_matchers_case_insensitive_joiner_case_sensitive.1
    (Regex.lit "B") ['b'] ['B'] (by decide)

end SanitizeDom
